import Mathlib

/-!
Verification of the arcLLM middleware core (retry, fallback, rate limiting,
PII redaction, request signing) against a shallow Lean embedding of the
Python sources under `src/arcllm/`.

Modelling conventions:
* Python `float` quantities (wait times, token counts, clock readings) are
  embedded as `ℚ`, treating the arithmetic as exact.
* Python strings are embedded as `List Char` (sequences of Unicode scalar
  values) where index arithmetic matters, with `String` at the boundaries.
* Fallible Python code (raising exceptions) is embedded as `Except PyError`
  or `Option` values.
* `random.uniform` and the wall clock are passed in as explicit parameters.
-/

/-- JSON-representable Python values, used for `dict[str, Any]` fields
(`ToolUseBlock.arguments`, `Tool.parameters`) and for the output of
`json.dumps` / `json.loads`.  Python floats are outside the model; every
value handled by the claims is one of the shapes below.  Objects are
insertion-ordered association lists, mirroring Python dicts. -/
inductive JValue where
  | null : JValue
  | bool (b : Bool) : JValue
  | int (n : ℤ) : JValue
  | str (s : String) : JValue
  | arr (xs : List JValue) : JValue
  | obj (fields : List (String × JValue)) : JValue

/-- `arcllm.types.TextBlock` / `ImageBlock` / `ToolUseBlock` /
`ToolResultBlock` (types.py lines 14-45), a closed discriminated union.
`ToolResultBlock.content` is either a string or a nested block list. -/
inductive ContentBlock where
  | text (text : String) : ContentBlock
  | image (source : String) (media_type : String) : ContentBlock
  | toolUse (id : String) (name : String) (arguments : List (String × JValue)) : ContentBlock
  | toolResultStr (tool_use_id : String) (content : String) : ContentBlock
  | toolResultBlocks (tool_use_id : String) (content : List ContentBlock) : ContentBlock

/-- `arcllm.types.Message` (types.py lines 53-55): a role together with
either plain string content or a list of content blocks. -/
inductive MessageContent where
  | str (s : String) : MessageContent
  | blocks (bs : List ContentBlock) : MessageContent

structure Message where
  role : String
  content : MessageContent

/-- `arcllm.types.Tool` (types.py lines 63-66). -/
structure Tool where
  name : String
  description : String
  parameters : List (String × JValue)

/-- `arcllm.types.ToolCall` (types.py lines 74-77). -/
structure ToolCall where
  id : String
  name : String
  arguments : List (String × JValue)

/-- `arcllm.types.Usage` (types.py lines 85-91). -/
structure Usage where
  input_tokens : ℤ
  output_tokens : ℤ
  total_tokens : ℤ
  cache_read_tokens : Option ℤ := none
  cache_write_tokens : Option ℤ := none
  reasoning_tokens : Option ℤ := none
deriving Repr, DecidableEq

/-- `arcllm.types.LLMResponse` (types.py lines 99-106).  Its declared
pydantic fields are exactly `content`, `tool_calls`, `usage`, `model`,
`stop_reason`, `thinking` and `raw`; there is no `metadata` field. -/
structure LLMResponse where
  content : Option String := none
  tool_calls : List ToolCall := []
  usage : Usage
  model : String
  stop_reason : String
  thinking : Option String := none
  raw : Option JValue := none

/-- The declared pydantic field names of `LLMResponse`, in declaration
order (types.py lines 99-106).  Pydantic v2 raises `AttributeError` on
access to any attribute outside this list. -/
def LLMResponse.fieldNames : List String :=
  ["content", "tool_calls", "usage", "model", "stop_reason", "thinking", "raw"]

/-- Exceptions raised by the embedded code paths: `ArcLLMAPIError`
(status code, retry-after hint), `httpx.ConnectError`,
`httpx.TimeoutException`, `ArcLLMConfigError`, Python `AttributeError`
and `json.JSONDecodeError`, and a catch-all for exception types the
middleware never inspects. -/
inductive PyError where
  | apiError (status_code : ℤ) (retry_after : Option ℚ) : PyError
  | connectError : PyError
  | timeoutError : PyError
  | configError (msg : String) : PyError
  | attributeError (attr : String) : PyError
  | jsonDecodeError : PyError
  | otherError (tag : String) : PyError
deriving Repr, DecidableEq

-- ---------------------------------------------------------------------------
-- RetryModule (src/arcllm/modules/retry.py)
-- ---------------------------------------------------------------------------

/-- `_DEFAULT_RETRYABLE_CODES` (retry.py line 17). -/
def _DEFAULT_RETRYABLE_CODES : List ℤ := [429, 500, 502, 503, 529]

/-- Validated `RetryModule` state: `self._max_retries`, `self._backoff_base`,
`self._max_wait`, `self._retryable_codes` (retry.py lines 36-41). -/
structure RetryState where
  max_retries : ℕ
  backoff_base : ℚ
  max_wait : ℚ
  retryable_codes : List ℤ
deriving Repr, DecidableEq

/-- Whether an exception is caught by the `except (ArcLLMAPIError,
httpx.ConnectError, httpx.TimeoutException)` clause (retry.py line 65). -/
def RetryModule.isCaught : PyError → Bool
  | .apiError _ _ => true
  | .connectError => true
  | .timeoutError => true
  | _ => false

/-- `RetryModule._is_retryable` (retry.py lines 86-92). -/
def RetryModule.is_retryable (st : RetryState) : PyError → Bool
  | .apiError code _ => code ∈ st.retryable_codes
  | .connectError => true
  | .timeoutError => true
  | _ => false

/-- `RetryModule._calculate_wait` (retry.py lines 94-105).  `uniform` stands
for `random.uniform`; the caller supplies the random source. -/
def RetryModule.calculate_wait (st : RetryState) (uniform : ℚ → ℚ → ℚ)
    (attempt : ℕ) (error : Option PyError) : ℚ :=
  match error with
  | some (.apiError _ (some ra)) => min ra st.max_wait
  | _ =>
      let backoff := st.backoff_base * 2 ^ attempt
      let jitter := uniform 0 backoff
      min (backoff + jitter) st.max_wait

/-- The `for attempt in range(self._max_retries + 1)` loop of
`RetryModule.invoke` (retry.py lines 58-84).  `outcomes i` is what the
inner target's `invoke` does on its `i`-th call (0-indexed).  Returns the
final result together with the number of inner calls performed.  The
fuel-0 fallthrough models `raise last_error` after the loop; it is
reached only when every iteration recorded a retryable error. -/
def RetryModule.invokeAux (st : RetryState) (outcomes : ℕ → Except PyError LLMResponse) :
    ℕ → ℕ → Option PyError → ℕ → (Except PyError LLMResponse) × ℕ
  | _, 0, last, calls => (.error (last.getD (.otherError "TypeError: raise None")), calls)
  | attempt, fuel + 1, _, calls =>
      match outcomes attempt with
      | .ok r => (.ok r, calls + 1)
      | .error e =>
          if RetryModule.isCaught e then
            if RetryModule.is_retryable st e then
              RetryModule.invokeAux st outcomes (attempt + 1) fuel (some e) (calls + 1)
            else (.error e, calls + 1)
          else (.error e, calls + 1)

/-- `RetryModule.invoke` (retry.py lines 50-84): up to `max_retries + 1`
attempts, re-raising non-retryable or uncaught errors immediately and the
last retryable error on exhaustion. -/
def RetryModule.invoke (st : RetryState) (outcomes : ℕ → Except PyError LLMResponse) :
    (Except PyError LLMResponse) × ℕ :=
  RetryModule.invokeAux st outcomes 0 (st.max_retries + 1) none 0

-- ---------------------------------------------------------------------------
-- FallbackModule (src/arcllm/modules/fallback.py)
-- ---------------------------------------------------------------------------

/-- A fallback adapter instance produced by `load_model`: an identity for
tracking `close()` calls, plus what its `invoke` does.  `close` itself is
modelled as always succeeding. -/
structure FallbackInstance where
  id : ℕ
  invokeResult : Except PyError LLMResponse

/-- One entry of the configured fallback chain: the provider name together
with what `load_model(provider_name)` does for it. -/
structure FallbackEntry where
  provider_name : String
  loadResult : Except PyError FallbackInstance

/-- The instance ids a walk over `entries` would construct: every entry
whose `load_model` call succeeds. -/
def FallbackModule.loadedIds (entries : List FallbackEntry) : List ℕ :=
  entries.filterMap fun en =>
    match en.loadResult with
    | .ok inst => some inst.id
    | .error _ => none

/-- An entry fails when `load_model` raises or the constructed instance's
`invoke` raises (both are absorbed by the `except Exception` clause,
fallback.py lines 59-68). -/
def FallbackEntry.fails (en : FallbackEntry) : Prop :=
  (∃ e, en.loadResult = .error e) ∨
    (∃ inst e, en.loadResult = .ok inst ∧ inst.invokeResult = .error e)

/-- The `for provider_name in self._chain` loop of `FallbackModule.invoke`
(fallback.py lines 57-75), entered after the primary raised
`primary_error`.  Returns the outcome together with the ids of every
instance whose `close()` ran in a `finally` block, in close order. -/
def FallbackModule.walk (primary_error : PyError) :
    List FallbackEntry → (Except PyError LLMResponse) × List ℕ
  | [] => (.error primary_error, [])
  | en :: rest =>
      match en.loadResult with
      | .error _ => FallbackModule.walk primary_error rest
      | .ok inst =>
          match inst.invokeResult with
          | .ok r => (.ok r, [inst.id])
          | .error _ =>
              let res := FallbackModule.walk primary_error rest
              (res.1, inst.id :: res.2)

/-- `FallbackModule.invoke` (fallback.py lines 43-75): forward to the
inner target; on any exception walk the chain, returning the first
fallback success, closing every constructed instance, and re-raising the
primary error when the whole chain fails. -/
def FallbackModule.invoke (primary : Except PyError LLMResponse)
    (entries : List FallbackEntry) : (Except PyError LLMResponse) × List ℕ :=
  match primary with
  | .ok r => (.ok r, [])
  | .error pe => FallbackModule.walk pe entries

/-- A concrete response used by witnesses. -/
def wResponseB : LLMResponse :=
  { usage := { input_tokens := 1, output_tokens := 1, total_tokens := 2 },
    model := "b", stop_reason := "end_turn" }

-- ---------------------------------------------------------------------------
-- TokenBucket and RateLimitModule registry (src/arcllm/modules/rate_limit.py)
-- ---------------------------------------------------------------------------

/-- `TokenBucket` state (rate_limit.py lines 22-27): `self._capacity` (an
int), `self._tokens` (a float, embedded as `ℚ`), `self._refill_rate`, and
`self._last_refill` (a monotonic-clock reading). -/
structure TokenBucket where
  capacity : ℤ
  tokens : ℚ
  refill_rate : ℚ
  last_refill : ℚ
deriving Repr, DecidableEq

/-- `TokenBucket.__init__` (rate_limit.py lines 22-27): the bucket starts
full at `capacity` tokens, stamped with the current clock reading. -/
def TokenBucket.init (capacity : ℤ) (refill_rate : ℚ) (now : ℚ) : TokenBucket :=
  { capacity := capacity, tokens := (capacity : ℚ), refill_rate := refill_rate,
    last_refill := now }

/-- `TokenBucket._refill` (rate_limit.py lines 29-34). -/
def TokenBucket.refill (b : TokenBucket) (now : ℚ) : TokenBucket :=
  { b with
      tokens := min (b.capacity : ℚ) (b.tokens + (now - b.last_refill) * b.refill_rate),
      last_refill := now }

/-- Outcome of one pass through the lock-guarded section of
`TokenBucket.acquire` (rate_limit.py lines 43-51): either a token was
consumed (the pass contributes wait 0), or the caller must sleep
`wait_seconds` outside the lock and loop. -/
inductive AcquireOutcome where
  | acquired : AcquireOutcome
  | mustWait (wait_seconds : ℚ) : AcquireOutcome
deriving Repr, DecidableEq

/-- One iteration of the `while True` body of `TokenBucket.acquire`
(rate_limit.py lines 43-51), executed atomically under `self._lock`:
refill, then either consume one token or compute the wait for the
1-token deficit.  Interleavings of concurrent acquirers are sequences of
these atomic sections. -/
def TokenBucket.acquireStep (b : TokenBucket) (now : ℚ) : AcquireOutcome × TokenBucket :=
  let b' := b.refill now
  if 1 ≤ b'.tokens then (.acquired, { b' with tokens := b'.tokens - 1 })
  else (.mustWait ((1 - b'.tokens) / b'.refill_rate), b')

/-- Fold a sequence of atomic acquire sections (at the given clock
readings) over a bucket. -/
def TokenBucket.runAcquires (b : TokenBucket) : List ℚ → TokenBucket
  | [] => b
  | t :: ts => TokenBucket.runAcquires (b.acquireStep t).2 ts

/-- The monotonic-clock guarantee: each section's reading is at least the
bucket's current `last_refill` stamp. -/
def TokenBucket.timesValid (b : TokenBucket) : List ℚ → Prop
  | [] => True
  | t :: ts => b.last_refill ≤ t ∧ TokenBucket.timesValid (b.acquireStep t).2 ts

/-- Repeat `n` atomic acquire sections at a fixed clock reading,
collecting the outcomes. -/
def TokenBucket.acquireRepeat (b : TokenBucket) (t : ℚ) : ℕ → List AcquireOutcome × TokenBucket
  | 0 => ([], b)
  | n + 1 =>
      let p := b.acquireStep t
      let q := TokenBucket.acquireRepeat p.2 t n
      (p.1 :: q.1, q.2)

/-- The C7 invariant. -/
def TokenBucket.Inv (b : TokenBucket) : Prop :=
  0 ≤ b.tokens ∧ b.tokens ≤ (b.capacity : ℚ)

-- ---------------------------------------------------------------------------
-- PII detection (src/arcllm/_pii.py)
-- ---------------------------------------------------------------------------

/-- Python's `\w` over the ASCII range: letters, digits, underscore (the
claims only exercise ASCII text, so the Unicode extension of `\w`, `\d`
and `\s` is outside the model). -/
def isWordChar (c : Char) : Bool := c.isAlphanum || c == '_'

/-- Python's `\s` over the ASCII range. -/
def isPySpace (c : Char) : Bool :=
  c == ' ' || c == '\t' || c == '\n' || c == '\r' || c == '\x0b' || c == '\x0c'

/-- Abstract syntax of the regular-expression fragment used by the
built-in PII patterns (_pii.py lines 33-50): character classes,
sequencing, greedy counted repetition `{lo,hi}` (with `?` = `{0,1}`,
`+` = `{1,}`), and the word-boundary assertion `\b`. -/
inductive RE where
  | cls (p : Char → Bool) : RE
  | seq (a b : RE) : RE
  | rep (lo : ℕ) (hi : Option ℕ) (a : RE) : RE
  | wordB : RE

/-- Backtracking matcher with Python `re` semantics: greedy quantifiers
try the longest extension first, and the first overall success (in
backtracking order) is returned, as CPython's engine does.  `k` is the
continuation receiving the position after the current node; the result
is the end position of the full match.  `fuel` bounds the recursion
depth; all theorems quantifying over texts are fuel-independent, and the
concrete evaluations use `reFuel`, which is checked to be sufficient on
the inputs involved. -/
def reMatch : ℕ → RE → List Char → ℕ → (ℕ → Option ℕ) → Option ℕ
  | 0, _, _, _, _ => none
  | fuel + 1, re, t, pos, k =>
      match re with
      | .cls p =>
          match t.get? pos with
          | some c => if p c then k (pos + 1) else none
          | none => none
      | .seq a b => reMatch fuel a t pos (fun q => reMatch fuel b t q k)
      | .wordB =>
          let prevW : Bool :=
            match pos with
            | 0 => false
            | q + 1 => ((t.get? q).map isWordChar).getD false
          let curW : Bool := ((t.get? pos).map isWordChar).getD false
          if prevW != curW then k pos else none
      | .rep lo hi a =>
          match lo with
          | l + 1 =>
              reMatch fuel a t pos (fun q => reMatch fuel (.rep l (hi.map (· - 1)) a) t q k)
          | 0 =>
              match hi with
              | some 0 => k pos
              | _ =>
                  match reMatch fuel a t pos
                      (fun q => if q = pos then none
                        else reMatch fuel (.rep 0 (hi.map (· - 1)) a) t q k) with
                  | some e => some e
                  | none => k pos

/-- Structural size of a pattern, used to compute evaluation fuel. -/
def RE.size : RE → ℕ
  | .cls _ => 1
  | .seq a b => a.size + b.size + 1
  | .rep lo hi a => a.size + lo + hi.getD 0 + 2
  | .wordB => 1

/-- Fuel for running `reMatch` on concrete inputs. -/
def reFuel (re : RE) (t : List Char) : ℕ :=
  (t.length + 2) * (re.size + 2) * 4

/-- End position of the match of `re` at position `pos`, if any
(Python `pattern.match(text, pos)` semantics). -/
def reMatchEnd (re : RE) (t : List Char) (pos : ℕ) : Option ℕ :=
  reMatch (reFuel re t) re t pos (fun q => some q)

/-- The scan loop of `pattern.finditer(text)`: leftmost matches, each
search resuming at the end of the previous match (or one past it when
the match is empty); returns the list of `(start, end)` spans. -/
def finditerAux (re : RE) (t : List Char) : ℕ → ℕ → List (ℕ × ℕ)
  | 0, _ => []
  | fuel + 1, pos =>
      if pos > t.length then []
      else
        match reMatchEnd re t pos with
        | some e =>
            if pos < e then (pos, e) :: finditerAux re t fuel e
            else (pos, e) :: finditerAux re t fuel (pos + 1)
        | none => finditerAux re t fuel (pos + 1)

/-- `pattern.finditer(text)` spans. -/
def finditer (re : RE) (t : List Char) : List (ℕ × ℕ) :=
  finditerAux re t (t.length + 1) 0

/-- `arcllm._pii.PiiMatch` (_pii.py lines 12-19).  The source field `end`
is a Lean keyword and is embedded as `end_`. -/
structure PiiMatch where
  pii_type : String
  start : ℕ
  end_ : ℕ
  matched_text : String
deriving Repr, DecidableEq

/-- Character-class helpers used to transcribe the built-in patterns. -/
def REchr (c : Char) : RE := .cls (fun x => x == c)

def REdigit : RE := .cls Char.isDigit

/-- The empty pattern, used to terminate sequences. -/
def REeps : RE := .rep 0 (some 0) (.cls (fun _ => false))

def REcat (rs : List RE) : RE := rs.foldr .seq REeps

/-- `[\s-]` -/
def REsepDash : RE := .cls (fun c => isPySpace c || c == '-')

/-- `[-.\s]` -/
def REphoneSep : RE := .cls (fun c => c == '-' || c == '.' || isPySpace c)

/-- `\b\d{3}-\d{2}-\d{4}\b` (_pii.py line 34). -/
def ssnRE : RE :=
  REcat [.wordB, .rep 3 (some 3) REdigit, REchr '-', .rep 2 (some 2) REdigit,
    REchr '-', .rep 4 (some 4) REdigit, .wordB]

/-- `\b\d{4}[\s-]?\d{4}[\s-]?\d{4}[\s-]?\d{4}\b` (_pii.py line 37). -/
def creditCardRE : RE :=
  REcat [.wordB, .rep 4 (some 4) REdigit, .rep 0 (some 1) REsepDash,
    .rep 4 (some 4) REdigit, .rep 0 (some 1) REsepDash,
    .rep 4 (some 4) REdigit, .rep 0 (some 1) REsepDash,
    .rep 4 (some 4) REdigit, .wordB]

/-- `\b[a-zA-Z0-9._%+-]+@[a-zA-Z0-9.-]+\.[a-zA-Z]{2,}\b` (_pii.py line 41). -/
def emailRE : RE :=
  REcat [.wordB,
    .rep 1 none (.cls (fun c => c.isAlphanum || c == '.' || c == '_' || c == '%' || c == '+' || c == '-')),
    REchr '@',
    .rep 1 none (.cls (fun c => c.isAlphanum || c == '.' || c == '-')),
    REchr '.',
    .rep 2 none (.cls Char.isAlpha),
    .wordB]

/-- `\b(?:\+?1[-.\s]?)?\(?\d{3}\)?[-.\s]?\d{3}[-.\s]?\d{4}\b`
(_pii.py line 46). -/
def phoneRE : RE :=
  REcat [.wordB,
    .rep 0 (some 1) (REcat [.rep 0 (some 1) (REchr '+'), REchr '1', .rep 0 (some 1) REphoneSep]),
    .rep 0 (some 1) (REchr '('),
    .rep 3 (some 3) REdigit,
    .rep 0 (some 1) (REchr ')'),
    .rep 0 (some 1) REphoneSep,
    .rep 3 (some 3) REdigit,
    .rep 0 (some 1) REphoneSep,
    .rep 4 (some 4) REdigit,
    .wordB]

/-- `\b\d{1,3}\.\d{1,3}\.\d{1,3}\.\d{1,3}\b` (_pii.py line 49). -/
def ipv4RE : RE :=
  REcat [.wordB, .rep 1 (some 3) REdigit, REchr '.', .rep 1 (some 3) REdigit,
    REchr '.', .rep 1 (some 3) REdigit, REchr '.', .rep 1 (some 3) REdigit, .wordB]

/-- `_BUILTIN_PATTERNS` (_pii.py lines 33-50), in registration order. -/
def _BUILTIN_PATTERNS : List (String × RE) :=
  [("SSN", ssnRE), ("CREDIT_CARD", creditCardRE), ("EMAIL", emailRE),
   ("PHONE", phoneRE), ("IPV4", ipv4RE)]

/-- Substring `t[s:e]` as a `String`. -/
def sliceStr (t : List Char) (s e : ℕ) : String := ((t.drop s).take (e - s)).asString

/-- The candidate list built by the double loop of
`RegexPiiDetector.detect` (_pii.py lines 85-95): every pattern's
`finditer` spans over the text, in pattern registration order. -/
def allCandidates (patterns : List (String × RE)) (t : List Char) : List PiiMatch :=
  patterns.flatMap fun p =>
    (finditer p.2 t).map fun se =>
      { pii_type := p.1, start := se.1, end_ := se.2, matched_text := sliceStr t se.1 se.2 }

/-- Order used by `all_matches.sort(key=lambda m: (m.start, -(m.end -
m.start)))` (_pii.py line 101), extended with the original list position
as final tie-break: Python's sort is stable, and a stable sort by a key
is extensionally the unique sort by (key, original index). -/
def pySortRel (a b : ℕ × PiiMatch) : Prop :=
  a.2.start < b.2.start ∨
    (a.2.start = b.2.start ∧
      ((b.2.end_ : ℤ) - (b.2.start : ℤ) < (a.2.end_ : ℤ) - (a.2.start : ℤ) ∨
        ((a.2.end_ : ℤ) - (a.2.start : ℤ) = (b.2.end_ : ℤ) - (b.2.start : ℤ) ∧ a.1 ≤ b.1)))

instance : DecidableRel pySortRel := fun a b => by
  unfold pySortRel; exact inferInstance

instance : IsTotal (ℕ × PiiMatch) pySortRel :=
  ⟨by intro a b; unfold pySortRel; omega⟩

instance : IsTrans (ℕ × PiiMatch) pySortRel :=
  ⟨by intro a b c; unfold pySortRel; omega⟩

/-- The stable sort at _pii.py line 101, modelled by tagging each
candidate with its list index and sorting lexicographically. -/
def pyStableSort (l : List PiiMatch) : List PiiMatch :=
  (l.enum.insertionSort pySortRel).map Prod.snd

/-- The overlap-removal loop of `RegexPiiDetector.detect`
(_pii.py lines 104-109): keep a match iff its start is at or past the
end of the last kept match (`last_end` starts at -1). -/
def filterOverlapping : List PiiMatch → ℤ → List PiiMatch
  | [], _ => []
  | m :: rest, last_end =>
      if last_end ≤ (m.start : ℤ) then m :: filterOverlapping rest (m.end_ : ℤ)
      else filterOverlapping rest last_end

/-- `RegexPiiDetector.detect` (_pii.py lines 76-111) for the detector
built with the given custom patterns appended after the built-ins
(custom pattern compilation is represented by the already-built `RE`
values). -/
def RegexPiiDetector.detect (custom : List (String × RE)) (text : String) : List PiiMatch :=
  if text = "" then []
  else
    let all_matches := allCandidates (_BUILTIN_PATTERNS ++ custom) text.data
    if all_matches = [] then []
    else filterOverlapping (pyStableSort all_matches) (-1)

/-- `arcllm._pii.redact_text` (_pii.py lines 114-126): replace each match
span with `[PII:<TYPE>]`, processing the matches (`ms`; the Python
parameter name `matches` is a Lean keyword) in reverse order. -/
def redact_text (text : List Char) (ms : List PiiMatch) : List Char :=
  if ms = [] then text
  else
    ms.reverse.foldl
      (fun res m =>
        res.take m.start ++ ("[PII:" ++ m.pii_type ++ "]").data ++ res.drop m.end_)
      text

/-- The untagged comparison induced by the sort key `(start, -(end -
start))`. -/
def keyRel (a b : PiiMatch) : Prop :=
  a.start < b.start ∨
    (a.start = b.start ∧ (b.end_ : ℤ) - (b.start : ℤ) ≤ (a.end_ : ℤ) - (a.start : ℤ))

/-- Two custom patterns for concrete overlap-resolution inputs: `X`
matches the literal `ab`, `Y` matches the literal `bcd`. -/
def customXY : List (String × RE) :=
  [("X", RE.seq (REchr 'a') (REchr 'b')),
   ("Y", RE.seq (REchr 'b') (RE.seq (REchr 'c') (REchr 'd')))]

-- ---------------------------------------------------------------------------
-- json.dumps / json.loads (used by security.py and _signing.py)
-- ---------------------------------------------------------------------------

/-- The `0x7b` / `0x7d` brace characters, named to keep them out of
string literals. -/
def lbraceChar : Char := Char.ofNat 123

def rbraceChar : Char := Char.ofNat 125

/-- Lowercase hexadecimal digit for `n < 16`. -/
def hexDigitChar (n : ℕ) : Char :=
  if n < 10 then Char.ofNat (48 + n) else Char.ofNat (87 + n)

/-- Four lowercase hex digits of `n < 0x10000`. -/
def hex4 (n : ℕ) : List Char :=
  [hexDigitChar (n / 4096 % 16), hexDigitChar (n / 256 % 16),
   hexDigitChar (n / 16 % 16), hexDigitChar (n % 16)]

/-- `json.dumps` escaping of one character with the default
`ensure_ascii=True`: `"` and `\` get two-character escapes, the five
named control characters get short escapes, remaining characters outside
`0x20..0x7e` become `\uXXXX` (a surrogate pair when above `0xffff`). -/
def escChar (c : Char) : List Char :=
  if c = '"' then ['\\', '"']
  else if c = '\\' then ['\\', '\\']
  else if c = '\n' then ['\\', 'n']
  else if c = '\r' then ['\\', 'r']
  else if c = '\t' then ['\\', 't']
  else if c.toNat = 8 then ['\\', 'b']
  else if c.toNat = 12 then ['\\', 'f']
  else if c.toNat < 32 then '\\' :: 'u' :: hex4 c.toNat
  else if c.toNat ≤ 126 then [c]
  else if c.toNat < 65536 then '\\' :: 'u' :: hex4 c.toNat
  else
    ('\\' :: 'u' :: hex4 (55296 + (c.toNat - 65536) / 1024)) ++
      ('\\' :: 'u' :: hex4 (56320 + (c.toNat - 65536) % 1024))

/-- A JSON string literal. -/
def dumpsStr (s : String) : List Char := '"' :: (s.data.flatMap escChar ++ ['"'])

/-- Decimal digits of `n`, most significant first, accumulated with
explicit fuel (`n + 1` suffices) so the definition stays structurally
recursive and kernel-computable. -/
def natToCharsAux : ℕ → ℕ → List Char → List Char
  | 0, _, acc => acc
  | fuel + 1, n, acc =>
      if n < 10 then Char.ofNat (48 + n) :: acc
      else natToCharsAux fuel (n / 10) (Char.ofNat (48 + n % 10) :: acc)

def natToChars (n : ℕ) : List Char := natToCharsAux (n + 1) n []

/-- Python `str(int)`. -/
def intToChars : ℤ → List Char
  | .ofNat n => natToChars n
  | .negSucc m => '-' :: natToChars (m + 1)

mutual
/-- `json.dumps` with `sort_keys=False` and the given item/key
separators, over `List Char`.  (`json.dumps(..., sort_keys=True)` is
modelled as this applied to the recursively key-sorted value — sorting
inspects only keys, which serialization of the values leaves unchanged,
so sorting at each level before or during serialization agree.) -/
def json_dumps (isep ksep : List Char) : JValue → List Char
  | .null => ['n', 'u', 'l', 'l']
  | .bool b => if b then ['t', 'r', 'u', 'e'] else ['f', 'a', 'l', 's', 'e']
  | .int n => intToChars n
  | .str s => dumpsStr s
  | .arr xs => '[' :: (json_dumpsArr isep ksep xs ++ [']'])
  | .obj fields => lbraceChar :: (json_dumpsObj isep ksep fields ++ [rbraceChar])

def json_dumpsArr (isep ksep : List Char) : List JValue → List Char
  | [] => []
  | [x] => json_dumps isep ksep x
  | x :: y :: xs => json_dumps isep ksep x ++ isep ++ json_dumpsArr isep ksep (y :: xs)

def json_dumpsObj (isep ksep : List Char) : List (String × JValue) → List Char
  | [] => []
  | [kv] => dumpsStr kv.1 ++ ksep ++ json_dumps isep ksep kv.2
  | kv :: kv' :: xs =>
      dumpsStr kv.1 ++ ksep ++ json_dumps isep ksep kv.2 ++ isep ++
        json_dumpsObj isep ksep (kv' :: xs)
end

mutual
/-- Recursively sort every object's fields by key: the effect of
`sort_keys=True`. -/
def canonize : JValue → JValue
  | .null => .null
  | .bool b => .bool b
  | .int n => .int n
  | .str s => .str s
  | .arr xs => .arr (canonizeArr xs)
  | .obj fields => .obj ((canonizeFields fields).insertionSort (fun a b => a.1 ≤ b.1))

def canonizeArr : List JValue → List JValue
  | [] => []
  | x :: xs => canonize x :: canonizeArr xs

def canonizeFields : List (String × JValue) → List (String × JValue)
  | [] => []
  | kv :: xs => (kv.1, canonize kv.2) :: canonizeFields xs
end

/-- JSON whitespace skipping (`' '`, `'\t'`, `'\n'`, `'\r'`). -/
def skipWs : List Char → List Char
  | [] => []
  | c :: t => if c = ' ' ∨ c = '\t' ∨ c = '\n' ∨ c = '\r' then skipWs t else c :: t

def parseHexDigit (c : Char) : Option ℕ :=
  if '0' ≤ c ∧ c ≤ '9' then some (c.toNat - 48)
  else if 'a' ≤ c ∧ c ≤ 'f' then some (c.toNat - 87)
  else if 'A' ≤ c ∧ c ≤ 'F' then some (c.toNat - 55)
  else none

/-- Unescape a simple (single-character) escape. -/
def simpleEsc (e : Char) : Option Char :=
  if e = '"' then some '"'
  else if e = '\\' then some '\\'
  else if e = '/' then some '/'
  else if e = 'b' then some (Char.ofNat 8)
  else if e = 'f' then some (Char.ofNat 12)
  else if e = 'n' then some '\n'
  else if e = 'r' then some '\r'
  else if e = 't' then some '\t'
  else none

/-- Four hex digits with their value. -/
def parseHex4 : List Char → Option (ℕ × List Char)
  | h1 :: h2 :: h3 :: h4 :: t =>
      match parseHexDigit h1, parseHexDigit h2, parseHexDigit h3, parseHexDigit h4 with
      | some d1, some d2, some d3, some d4 =>
          some (((d1 * 16 + d2) * 16 + d3) * 16 + d4, t)
      | _, _, _, _ => none
  | _ => none

/-- One `\uXXXX` escape, pairing surrogates.  Lone surrogates (which
Python would keep as lone code units, unrepresentable in a Lean `Char`)
are outside the model and rejected. -/
def parseUEsc (t1 : List Char) : Option (Char × List Char) :=
  match parseHex4 t1 with
  | none => none
  | some (n, t2) =>
      if 55296 ≤ n ∧ n < 56320 then
        match t2 with
        | b1 :: b2 :: t3 =>
            if b1 = '\\' ∧ b2 = 'u' then
              match parseHex4 t3 with
              | some (m, t4) =>
                  if 56320 ≤ m ∧ m < 57344 then
                    some (Char.ofNat (65536 + (n - 55296) * 1024 + (m - 56320)), t4)
                  else none
              | none => none
            else none
        | _ => none
      else if 56320 ≤ n ∧ n < 57344 then none
      else some (Char.ofNat n, t2)

/-- One character (or escape sequence) of a string-literal body, strict
mode: raw control characters and malformed escapes are rejected. -/
def parseEscUnit (c : Char) (t : List Char) : Option (Char × List Char) :=
  if c = '\\' then
    match t with
    | [] => none
    | e :: t1 =>
        if e = 'u' then parseUEsc t1
        else (simpleEsc e).map (fun d => (d, t1))
  else if c.toNat < 32 then none
  else some (c, t)

/-- Body of a JSON string literal (after the opening quote): unescape
one unit at a time until the closing quote.  Each unit consumes at
least one character, so fuel `input length + 1` (what the callers pass)
always suffices. -/
def parseStrAux : ℕ → List Char → Option (List Char × List Char)
  | 0, _ => none
  | fuel + 1, s =>
      match s with
      | [] => none
      | c :: t =>
          if c = '"' then some ([], t)
          else
            match parseEscUnit c t with
            | some r => (parseStrAux fuel r.2).map (fun q => (r.1 :: q.1, q.2))
            | none => none

/-- Maximal run of decimal digits with accumulated value. -/
def parseDigitsAux : List Char → ℕ → ℕ × List Char
  | [], acc => (acc, [])
  | c :: t, acc =>
      if c.isDigit then parseDigitsAux t (acc * 10 + (c.toNat - 48)) else (acc, c :: t)

/-- Digits (and what follows) of a JSON number after an optional leading
minus sign, restricted to integers (a fraction or exponent means a
Python float, which is outside the model); leading zeros are rejected
as in the JSON grammar. -/
def parseNumberBody (neg : Bool) (s : List Char) : Option (JValue × List Char) :=
  match s with
  | [] => none
  | c :: t =>
      if ¬c.isDigit then none
      else if c = '0' ∧ (t.head?.map Char.isDigit).getD false then none
      else
        let r := parseDigitsAux (c :: t) 0
        match r.2 with
        | [] => some (.int (if neg then -(r.1 : ℤ) else (r.1 : ℤ)), [])
        | d :: t2 =>
            if d = '.' ∨ d = 'e' ∨ d = 'E' then none
            else some (.int (if neg then -(r.1 : ℤ) else (r.1 : ℤ)), d :: t2)

/-- JSON number grammar restricted to integers. -/
def parseNumber (s : List Char) : Option (JValue × List Char) :=
  match s with
  | '-' :: t => parseNumberBody true t
  | _ => parseNumberBody false s

mutual
/-- `json.loads` value grammar (strict mode, integers only), with fuel
making the mutual recursion structural.  Returns the parsed value and
the unconsumed input. -/
def parseVal : ℕ → List Char → Option (JValue × List Char)
  | 0, _ => none
  | fuel + 1, s =>
      match skipWs s with
      | [] => none
      | c :: t =>
          if c = '"' then (parseStrAux (t.length + 1) t).map (fun r => (.str r.1.asString, r.2))
          else if c = '[' then
            match skipWs t with
            | ']' :: t2 => some (.arr [], t2)
            | _ => (parseItems fuel t).map (fun r => (.arr r.1, r.2))
          else if c = lbraceChar then
            match skipWs t with
            | r :: t2 =>
                if r = rbraceChar then some (.obj [], t2)
                else (parseMembers fuel t).map (fun r => (.obj r.1, r.2))
            | [] => none
          else if c = 'n' then
            match t with
            | 'u' :: 'l' :: 'l' :: t2 => some (.null, t2)
            | _ => none
          else if c = 't' then
            match t with
            | 'r' :: 'u' :: 'e' :: t2 => some (.bool true, t2)
            | _ => none
          else if c = 'f' then
            match t with
            | 'a' :: 'l' :: 's' :: 'e' :: t2 => some (.bool false, t2)
            | _ => none
          else parseNumber (c :: t)

def parseItems : ℕ → List Char → Option (List JValue × List Char)
  | 0, _ => none
  | fuel + 1, s =>
      match parseVal fuel s with
      | none => none
      | some (v, rest) =>
          match skipWs rest with
          | ',' :: t2 => (parseItems fuel t2).map (fun r => (v :: r.1, r.2))
          | ']' :: t2 => some ([v], t2)
          | _ => none

def parseMembers : ℕ → List Char → Option (List (String × JValue) × List Char)
  | 0, _ => none
  | fuel + 1, s =>
      match skipWs s with
      | '"' :: t =>
          match parseStrAux (t.length + 1) t with
          | none => none
          | some (kcs, rest) =>
              match skipWs rest with
              | ':' :: t2 =>
                  match parseVal fuel t2 with
                  | none => none
                  | some (v, rest2) =>
                      match skipWs rest2 with
                      | ',' :: t3 =>
                          (parseMembers fuel t3).map (fun r =>
                            ((kcs.asString, v) :: r.1, r.2))
                      | r :: t3 =>
                          if r = rbraceChar then some ([(kcs.asString, v)], t3) else none
                      | [] => none
              | _ => none
      | _ => none
end

/-- `json.loads`: a value followed by only whitespace. -/
def json_loads (s : List Char) : Option JValue :=
  match parseVal (2 * s.length + 2) s with
  | some (v, rest) => if skipWs rest = [] then some v else none
  | none => none

-- ---------------------------------------------------------------------------
-- Pydantic model_dump and canonical_payload (src/arcllm/_signing.py)
-- ---------------------------------------------------------------------------

mutual
/-- Pydantic `model_dump` of a content block: a dict in field declaration
order with the `type` discriminator first (types.py lines 14-45). -/
def ContentBlock.model_dump : ContentBlock → JValue
  | .text tx => .obj [("type", .str "text"), ("text", .str tx)]
  | .image src mt =>
      .obj [("type", .str "image"), ("source", .str src), ("media_type", .str mt)]
  | .toolUse id name args =>
      .obj [("type", .str "tool_use"), ("id", .str id), ("name", .str name),
            ("arguments", .obj args)]
  | .toolResultStr tid c =>
      .obj [("type", .str "tool_result"), ("tool_use_id", .str tid), ("content", .str c)]
  | .toolResultBlocks tid bs =>
      .obj [("type", .str "tool_result"), ("tool_use_id", .str tid),
            ("content", .arr (ContentBlock.model_dumpList bs))]

def ContentBlock.model_dumpList : List ContentBlock → List JValue
  | [] => []
  | b :: bs => b.model_dump :: ContentBlock.model_dumpList bs
end

/-- Pydantic `model_dump` of a `Message` (types.py lines 53-55). -/
def Message.model_dump (m : Message) : JValue :=
  .obj [("role", .str m.role),
        ("content",
          match m.content with
          | .str s => .str s
          | .blocks bs => .arr (ContentBlock.model_dumpList bs))]

/-- Pydantic `model_dump` of a `Tool` (types.py lines 63-66). -/
def Tool.model_dump (t : Tool) : JValue :=
  .obj [("name", .str t.name), ("description", .str t.description),
        ("parameters", .obj t.parameters)]

/-- The `data` dict built by `canonical_payload` (_signing.py lines
41-45): `tools` collapses to `[]` both when `None` and when empty,
because `[... ] if tools else []` tests Python truthiness. -/
def payloadJ (messages : List Message) (tools : Option (List Tool)) (model : String) : JValue :=
  .obj [("messages", .arr (messages.map Message.model_dump)),
        ("model", .str model),
        ("tools",
          match tools with
          | some (t :: ts) => .arr ((t :: ts).map Tool.model_dump)
          | _ => .arr [])]

/-- `canonical_payload` (_signing.py lines 32-46):
`json.dumps(data, sort_keys=True, separators=(",", ":")).encode("utf-8")`,
modelled as compact serialization of the recursively key-sorted value. -/
def canonical_payload (messages : List Message) (tools : Option (List Tool))
    (model : String) : List Char :=
  json_dumps [','] [':'] (canonize (payloadJ messages tools model))

-- ---------------------------------------------------------------------------
-- SecurityModule (src/arcllm/modules/security.py)
-- ---------------------------------------------------------------------------

/-- Validated `SecurityModule` state (security.py lines 59-81): the
toggles, the detector's custom patterns (present iff PII is enabled; the
`RE` values stand for the compiled regexes), and the signing algorithm
name. -/
structure SecurityState where
  pii_enabled : Bool
  signing_enabled : Bool
  custom_patterns : List (String × RE)
  signing_algorithm : String

/-- `SecurityModule._redact_str` (security.py lines 164-169). -/
def SecurityModule.redact_str (custom : List (String × RE)) (text : String) : String :=
  let ms := RegexPiiDetector.detect custom text
  if ms = [] then text else (redact_text text.data ms).asString

/-- `SecurityModule._redact_blocks` (security.py lines 126-162).  Text
blocks are redacted by value; tool-result string content is redacted;
tool-use arguments are serialized with `json.dumps`, the whole
serialization is scanned and redacted, and re-parsed with `json.loads`
when changed (`json.JSONDecodeError` propagates if the redaction broke
the JSON; a non-dict parse would fail pydantic validation); everything
else (images, tool results holding block lists) passes through. -/
def SecurityModule.redact_blocks (custom : List (String × RE)) :
    List ContentBlock → Except PyError (List ContentBlock)
  | [] => .ok []
  | b :: rest =>
      match b with
      | .text tx =>
          (SecurityModule.redact_blocks custom rest).map
            (fun r => .text (SecurityModule.redact_str custom tx) :: r)
      | .toolResultStr tid c =>
          (SecurityModule.redact_blocks custom rest).map
            (fun r => .toolResultStr tid (SecurityModule.redact_str custom c) :: r)
      | .toolUse id name args =>
          let args_str := (json_dumps [',', ' '] [':', ' '] (.obj args)).asString
          let redacted_str := SecurityModule.redact_str custom args_str
          if redacted_str ≠ args_str then
            match json_loads redacted_str.data with
            | some (.obj redacted_args) =>
                (SecurityModule.redact_blocks custom rest).map
                  (fun r => .toolUse id name redacted_args :: r)
            | some _ => .error (.otherError "ValidationError: arguments must be a dict")
            | none => .error .jsonDecodeError
          else
            (SecurityModule.redact_blocks custom rest).map (fun r => b :: r)
      | .toolResultBlocks tid bs =>
          (SecurityModule.redact_blocks custom rest).map
            (fun r => .toolResultBlocks tid bs :: r)
      | .image src mt =>
          (SecurityModule.redact_blocks custom rest).map (fun r => .image src mt :: r)

/-- `SecurityModule._redact_messages` (security.py lines 112-124). -/
def SecurityModule.redact_messages (custom : List (String × RE)) :
    List Message → Except PyError (List Message)
  | [] => .ok []
  | msg :: rest =>
      match msg.content with
      | .str c =>
          (SecurityModule.redact_messages custom rest).map
            (fun r => { role := msg.role,
                        content := .str (SecurityModule.redact_str custom c) } :: r)
      | .blocks bs => do
          let bs2 ← SecurityModule.redact_blocks custom bs
          let r ← SecurityModule.redact_messages custom rest
          return { role := msg.role, content := .blocks bs2 } :: r

/-- `SecurityModule._redact_response` (security.py lines 171-181). -/
def SecurityModule.redact_response (custom : List (String × RE)) (response : LLMResponse) :
    LLMResponse :=
  match response.content with
  | none => response
  | some c =>
      let redacted := SecurityModule.redact_str custom c
      if redacted ≠ c then { response with content := some redacted } else response

/-- Pydantic v2 attribute access for `response.metadata`
(security.py line 187): raised as `AttributeError` because `metadata`
is not among the declared fields of `LLMResponse` (types.py 99-106). -/
def LLMResponse.getattr_metadata (_response : LLMResponse) :
    Except PyError (Option (List (String × String))) :=
  if "metadata" ∈ LLMResponse.fieldNames then .ok none
  else .error (.attributeError "metadata")

/-- `SecurityModule._attach_signature` (security.py lines 183-191).  The
body after the `response.metadata` read (`dict(...) if ... else ` empty,
two inserts, `model_copy`) is never reached, because the read always
raises `AttributeError` for this model class. -/
def SecurityModule.attach_signature (response : LLMResponse) (_signature : String)
    (_algorithm : String) : Except PyError LLMResponse := do
  let _md ← response.getattr_metadata
  return response

/-- `SecurityModule.invoke` (security.py lines 83-110): the four-phase
pipeline.  `signer` stands for `self._signer.sign` and `inner` for the
wrapped target's `invoke`. -/
def SecurityModule.invoke (st : SecurityState) (signer : List Char → String)
    (model_name : String)
    (inner : List Message → Option (List Tool) → Except PyError LLMResponse)
    (messages : List Message) (tools : Option (List Tool)) : Except PyError LLMResponse := do
  let messages ←
    if st.pii_enabled then SecurityModule.redact_messages st.custom_patterns messages
    else .ok messages
  let response ← inner messages tools
  let response :=
    if st.pii_enabled then SecurityModule.redact_response st.custom_patterns response
    else response
  if st.signing_enabled then
    let payload := canonical_payload messages tools model_name
    let signature := signer payload
    SecurityModule.attach_signature response signature st.signing_algorithm
  else
    return response

/-- A concrete inner-provider response whose content carries an email
address, used in the C1/C2 examples. -/
def echoResponse : LLMResponse :=
  { content := some "Contact: a@b.com",
    usage := { input_tokens := 1, output_tokens := 1, total_tokens := 2 },
    model := "m", stop_reason := "end_turn" }

-- ---------------------------------------------------------------------------
-- Module configuration and construction-time validation
-- ---------------------------------------------------------------------------

/-- Configuration values occurring in module configs: Python ints,
floats (as `ℚ`), strings, bools, int lists, string lists, and custom
PII pattern lists (with the compiled `RE` standing for the pattern). -/
inductive CVal where
  | int (n : ℤ) : CVal
  | rat (q : ℚ) : CVal
  | str (s : String) : CVal
  | bool (b : Bool) : CVal
  | intList (xs : List ℤ) : CVal
  | strList (xs : List String) : CVal
  | patList (ps : List (String × RE)) : CVal

/-- A `config: dict[str, Any]`, as an insertion-ordered association
list. -/
def Config : Type := List (String × CVal)

/-- `config.get(key)`. -/
def Config.get (cfg : Config) (k : String) : Option CVal :=
  ((cfg : List (String × CVal)).find? (fun p => p.1 == k)).map (fun p => p.2)

/-- `config.keys()`. -/
def Config.keys (cfg : Config) : List String :=
  (cfg : List (String × CVal)).map (fun p => p.1)

/-- `config.get(key, default)` where an int is expected; a value of the
wrong runtime type would raise `TypeError` at the first comparison. -/
def Config.getInt (cfg : Config) (k : String) (d : ℤ) : Except PyError ℤ :=
  match cfg.get k with
  | none => .ok d
  | some (.int n) => .ok n
  | some _ => .error (.otherError "TypeError")

/-- `config.get(key, default)` where a number is expected (Python
accepts ints where floats are expected). -/
def Config.getNum (cfg : Config) (k : String) (d : ℚ) : Except PyError ℚ :=
  match cfg.get k with
  | none => .ok d
  | some (.int n) => .ok (n : ℚ)
  | some (.rat q) => .ok q
  | some _ => .error (.otherError "TypeError")

def Config.getStr (cfg : Config) (k : String) (d : String) : Except PyError String :=
  match cfg.get k with
  | none => .ok d
  | some (.str s) => .ok s
  | some _ => .error (.otherError "TypeError")

def Config.getBool (cfg : Config) (k : String) (d : Bool) : Except PyError Bool :=
  match cfg.get k with
  | none => .ok d
  | some (.bool b) => .ok b
  | some _ => .error (.otherError "TypeError")

def Config.getIntList (cfg : Config) (k : String) (d : List ℤ) : Except PyError (List ℤ) :=
  match cfg.get k with
  | none => .ok d
  | some (.intList xs) => .ok xs
  | some _ => .error (.otherError "TypeError")

def Config.getStrList (cfg : Config) (k : String) (d : List String) :
    Except PyError (List String) :=
  match cfg.get k with
  | none => .ok d
  | some (.strList xs) => .ok xs
  | some _ => .error (.otherError "TypeError")

def Config.getPatList (cfg : Config) (k : String) (d : List (String × RE)) :
    Except PyError (List (String × RE)) :=
  match cfg.get k with
  | none => .ok d
  | some (.patList ps) => .ok ps
  | some _ => .error (.otherError "TypeError")

/-- `RetryModule.__init__` (retry.py lines 34-48): reads the four
settings with defaults, then validates the ranges.  `set(...)` over the
status codes is modelled by the list itself (only membership is ever
used).  No unknown-key check is performed. -/
def RetryModule.init (cfg : Config) : Except PyError RetryState := do
  let max_retries ← cfg.getInt "max_retries" 3
  let backoff_base ← cfg.getNum "backoff_base_seconds" 1
  let max_wait ← cfg.getNum "max_wait_seconds" 60
  let codes ← cfg.getIntList "retryable_status_codes" _DEFAULT_RETRYABLE_CODES
  if max_retries < 0 then .error (.configError "max_retries must be >= 0")
  else if backoff_base ≤ 0 then .error (.configError "backoff_base_seconds must be > 0")
  else if max_wait ≤ 0 then .error (.configError "max_wait_seconds must be > 0")
  else .ok ⟨max_retries.toNat, backoff_base, max_wait, codes⟩

def _MAX_FALLBACK_CHAIN_LENGTH : ℕ := 10

/-- `FallbackModule.__init__` (fallback.py lines 34-41): reads the chain
and validates only its length.  No unknown-key check is performed. -/
def FallbackModule.init (cfg : Config) : Except PyError (List String) := do
  let chain ← cfg.getStrList "chain" []
  if chain.length > _MAX_FALLBACK_CHAIN_LENGTH then
    .error (.configError "Fallback chain too long")
  else .ok chain

/-- `_get_or_create_bucket` (rate_limit.py lines 66-72): per-provider
shared bucket registry (a dict keyed by provider name; insertion
appends). -/
def _get_or_create_bucket (registry : List (String × TokenBucket)) (provider : String)
    (capacity : ℤ) (refill_rate : ℚ) (now : ℚ) : TokenBucket × List (String × TokenBucket) :=
  match registry.find? (fun p => p.1 == provider) with
  | some p => (p.2, registry)
  | none =>
      let b := TokenBucket.init capacity refill_rate now
      (b, registry ++ [(provider, b)])

structure RateLimitState where
  provider_name : String
  bucket : TokenBucket
deriving Repr, DecidableEq

/-- `RateLimitModule.__init__` (rate_limit.py lines 94-108): validates
`requests_per_minute` and `burst_capacity`, then fetches or creates the
shared bucket for `inner.name` with capacity `burst_capacity` (default
`rpm`) and refill rate `rpm / 60`.  No unknown-key check is
performed. -/
def RateLimitModule.init (cfg : Config) (inner_name : String)
    (registry : List (String × TokenBucket)) (now : ℚ) :
    Except PyError (RateLimitState × List (String × TokenBucket)) := do
  let rpm ← cfg.getInt "requests_per_minute" 60
  if rpm ≤ 0 then .error (.configError "requests_per_minute must be > 0")
  else do
    let capacity ← cfg.getInt "burst_capacity" rpm
    if capacity < 1 then .error (.configError "burst_capacity must be >= 1")
    else
      let p := _get_or_create_bucket registry inner_name capacity ((rpm : ℚ) / 60) now
      .ok (⟨inner_name, p.1⟩, p.2)

/-- `_VALID_CONFIG_KEYS` (security.py lines 23-31). -/
def _VALID_CONFIG_KEYS : List String :=
  ["pii_enabled", "pii_detector", "pii_custom_patterns", "signing_enabled",
   "signing_algorithm", "signing_key_env", "enabled"]

/-- `_VALID_DETECTORS` (security.py line 33). -/
def _VALID_DETECTORS : List String := ["regex"]

/-- `create_signer` (_signing.py lines 49-81).  `env` stands for
`os.environ`; the signer itself is represented by its resolved key.
Both `ecdsa-p256` branches (missing optional dependency, and the
not-yet-implemented path) raise `ArcLLMConfigError`. -/
def create_signer (env : String → Option String) (algorithm signing_key_env : String) :
    Except PyError String :=
  match env signing_key_env with
  | none => .error (.configError "Signing key environment variable not set")
  | some key =>
      if algorithm = "hmac-sha256" then .ok key
      else if algorithm = "ecdsa-p256" then
        .error (.configError "ECDSA signing is available but not yet fully implemented")
      else .error (.configError "Unsupported signing algorithm")

/-- `SecurityModule.__init__` (security.py lines 49-81): rejects unknown
config keys, then builds the detector (when PII is enabled; custom
pattern compilation is represented by the already-built `RE` values)
and the signer (when signing is enabled). -/
def SecurityModule.init (cfg : Config) (env : String → Option String) :
    Except PyError SecurityState := do
  if (Config.keys cfg).filter (fun k => decide (k ∉ _VALID_CONFIG_KEYS)) ≠ [] then
    .error (.configError "Unknown SecurityModule config keys")
  else do
    let pii_enabled ← cfg.getBool "pii_enabled" true
    let signing_enabled ← cfg.getBool "signing_enabled" true
    let custom ←
      if pii_enabled then do
        let detector_type ← cfg.getStr "pii_detector" "regex"
        let ps ← cfg.getPatList "pii_custom_patterns" []
        if detector_type ∈ _VALID_DETECTORS then Except.ok ps
        else .error (.configError "Unsupported pii_detector type")
      else Except.ok []
    let algorithm ← cfg.getStr "signing_algorithm" "hmac-sha256"
    let _signer ←
      if signing_enabled then do
        let key_env ← cfg.getStr "signing_key_env" "ARCLLM_SIGNING_KEY"
        (create_signer env algorithm key_env).map some
      else Except.ok none
    return ⟨pii_enabled, signing_enabled, custom, algorithm⟩

/-- The settings `RetryModule.__init__` actually reads. -/
def retryKnownKeys : List String :=
  ["max_retries", "backoff_base_seconds", "max_wait_seconds", "retryable_status_codes"]

-- ---------------------------------------------------------------------------
-- Canonical-serialization roundtrip (towards C8)
-- ---------------------------------------------------------------------------

mutual
/-- Parser fuel sufficient for a value's canonical serialization. -/
def Jfuel : JValue → ℕ
  | .null => 1
  | .bool _ => 1
  | .int _ => 1
  | .str _ => 1
  | .arr xs => JfuelArr xs + 2
  | .obj fs => JfuelObj fs + 2

def JfuelArr : List JValue → ℕ
  | [] => 1
  | x :: xs => Jfuel x + JfuelArr xs + 1

def JfuelObj : List (String × JValue) → ℕ
  | [] => 1
  | kv :: xs => Jfuel kv.2 + JfuelObj xs + 1
end

/-- JSON whitespace. -/
def wsChar (c : Char) : Prop := c = ' ' ∨ c = '\t' ∨ c = '\n' ∨ c = '\r'

/-- Continuations after which a serialized value is re-parsed unambiguously
(only numbers, which end at the first non-digit, care). -/
def Delim : List Char → Prop
  | [] => True
  | c :: _ => c = ',' ∨ c = ']' ∨ c = rbraceChar ∨ wsChar c

/-- Compact serialization (`separators=(",", ":")`), as used by
`canonical_payload`. -/
def dumpsC : JValue → List Char := json_dumps [','] [':']

def dumpsArrC : List JValue → List Char := json_dumpsArr [','] [':']

def dumpsObjC : List (String × JValue) → List Char := json_dumpsObj [','] [':']

instance decWsChar (c : Char) : Decidable (wsChar c) :=
  inferInstanceAs (Decidable (c = ' ' ∨ c = '\t' ∨ c = '\n' ∨ c = '\r'))

instance keyLE_total : IsTotal (String × JValue) (fun a b => a.1 ≤ b.1) :=
  ⟨fun a b => le_total a.1 b.1⟩

instance keyLE_trans : IsTrans (String × JValue) (fun a b => a.1 ≤ b.1) :=
  ⟨fun _ _ _ h1 h2 => le_trans h1 h2⟩

instance keyLT_antisymm : IsAntisymm (String × JValue) (fun a b => a.1 < b.1) :=
  ⟨fun _ _ h1 h2 => absurd (lt_trans h1 h2) (lt_irrefl _)⟩

def c8args1 : List (String × JValue) := [("a", .int 1), ("b", .int 2)]

def c8args2 : List (String × JValue) := [("b", .int 2), ("a", .int 1)]

def c8msg1 : Message := ⟨"user", .blocks [.toolUse "t1" "calc" c8args1]⟩

def c8msg2 : Message := ⟨"user", .blocks [.toolUse "t1" "calc" c8args2]⟩

lemma RetryModule.invokeAux_all_retryable (st : RetryState)
    (outcomes : ℕ → Except PyError LLMResponse) :
    ∀ (fuel attempt calls : ℕ) (last : Option PyError), 0 < fuel →
    (∀ i, attempt ≤ i → i < attempt + fuel →
      ∃ e, outcomes i = .error e ∧ RetryModule.isCaught e = true ∧
        RetryModule.is_retryable st e = true) →
    ∃ e, outcomes (attempt + fuel - 1) = .error e ∧
      RetryModule.invokeAux st outcomes attempt fuel last calls = (.error e, calls + fuel) := by
  intro fuel
  induction fuel with
  | zero => intro attempt calls last h; omega
  | succ f ih =>
      intro attempt calls last _ hfail
      obtain ⟨e, he, hc, hr⟩ := hfail attempt (le_refl _) (by omega)
      by_cases hf : f = 0
      · subst hf
        refine ⟨e, by simpa using he, ?_⟩
        simp [RetryModule.invokeAux, he, hc, hr]
      · obtain ⟨e', he', haux⟩ := ih (attempt + 1) (calls + 1) (some e) (by omega)
          (fun i h1 h2 => hfail i (by omega) (by omega))
        have hidx : attempt + (f + 1) - 1 = attempt + 1 + f - 1 := by omega
        refine ⟨e', by rw [hidx]; exact he', ?_⟩
        simp only [RetryModule.invokeAux, he, hc, hr]
        have hcalls : calls + 1 + f = calls + (f + 1) := by omega
        rw [haux, hcalls]
        simp

lemma RetryModule.invokeAux_stops_at_nonretryable (st : RetryState)
    (outcomes : ℕ → Except PyError LLMResponse) :
    ∀ (fuel attempt calls : ℕ) (last : Option PyError) (k : ℕ) (e : PyError),
    k < fuel →
    (∀ i, attempt ≤ i → i < attempt + k →
      ∃ e', outcomes i = .error e' ∧ RetryModule.isCaught e' = true ∧
        RetryModule.is_retryable st e' = true) →
    outcomes (attempt + k) = .error e →
    ¬(RetryModule.isCaught e = true ∧ RetryModule.is_retryable st e = true) →
    RetryModule.invokeAux st outcomes attempt fuel last calls = (.error e, calls + k + 1) := by
  intro fuel
  induction fuel with
  | zero => intro attempt calls last k e hk; omega
  | succ f ih =>
      intro attempt calls last k e hk hpre hke hnr
      match k with
      | 0 =>
          simp only [Nat.add_zero] at hke
          by_cases hc : RetryModule.isCaught e
          · have hr : RetryModule.is_retryable st e = false := by
              rcases Bool.eq_false_or_eq_true (RetryModule.is_retryable st e) with h | h
              · exact absurd ⟨hc, h⟩ hnr
              · exact h
            simp [RetryModule.invokeAux, hke, hc, hr]
          · simp only [Bool.not_eq_true] at hc
            simp [RetryModule.invokeAux, hke, hc]
      | k' + 1 =>
          obtain ⟨e0, he0, hc0, hr0⟩ := hpre attempt (le_refl _) (by omega)
          simp only [RetryModule.invokeAux, he0, hc0, hr0]
          rw [show attempt + (k' + 1) = (attempt + 1) + k' by omega] at hke
          rw [ih (attempt + 1) (calls + 1) (some e0) k' e (by omega)
            (fun i h1 h2 => hpre i (by omega) (by omega)) hke hnr]
          have hcalls : calls + 1 + k' + 1 = calls + (k' + 1) + 1 := by omega
          rw [hcalls]
          simp

/-- C4: with `maxRetries + 1` consecutive retryable failures the inner
target is called exactly `maxRetries + 1` times and the last failure is
raised; an error is retryable iff it is an `APIError` with status in the
configured set or a connection/timeout failure; a non-retryable error at
its first occurrence (attempt `k`, after `k` retryable failures) is
raised at once after exactly `k + 1` calls. -/
theorem retry_exhaustion_and_retryability (st : RetryState)
    (outcomes : ℕ → Except PyError LLMResponse) :
    ((∀ i, i ≤ st.max_retries →
        ∃ e, outcomes i = .error e ∧ RetryModule.isCaught e = true ∧
          RetryModule.is_retryable st e = true) →
      ∃ e, outcomes st.max_retries = .error e ∧
        RetryModule.invoke st outcomes = (.error e, st.max_retries + 1)) ∧
    (∀ e, RetryModule.is_retryable st e = true ↔
      ((∃ code ra, e = .apiError code ra ∧ code ∈ st.retryable_codes) ∨
        e = .connectError ∨ e = .timeoutError)) ∧
    (∀ k e, k ≤ st.max_retries →
      (∀ i, i < k →
        ∃ e', outcomes i = .error e' ∧ RetryModule.isCaught e' = true ∧
          RetryModule.is_retryable st e' = true) →
      outcomes k = .error e →
      ¬(RetryModule.isCaught e = true ∧ RetryModule.is_retryable st e = true) →
      RetryModule.invoke st outcomes = (.error e, k + 1)) := by
  refine ⟨?_, ?_, ?_⟩
  · intro hfail
    obtain ⟨e, he, haux⟩ := RetryModule.invokeAux_all_retryable st outcomes
      (st.max_retries + 1) 0 0 none (by omega)
      (fun i h1 h2 => hfail i (by omega))
    refine ⟨e, by simpa using he, ?_⟩
    simpa [RetryModule.invoke] using haux
  · intro e
    cases e with
    | apiError code ra =>
        simp only [RetryModule.is_retryable, decide_eq_true_eq]
        constructor
        · intro h; exact Or.inl ⟨code, ra, rfl, h⟩
        · rintro (⟨c, r, heq, hm⟩ | h | h)
          · cases heq; exact hm
          · simp at h
          · simp at h
    | connectError => simp [RetryModule.is_retryable]
    | timeoutError => simp [RetryModule.is_retryable]
    | configError m => simp [RetryModule.is_retryable]
    | attributeError a => simp [RetryModule.is_retryable]
    | jsonDecodeError => simp [RetryModule.is_retryable]
    | otherError t => simp [RetryModule.is_retryable]
  · intro k e hk hpre hke hnr
    have := RetryModule.invokeAux_stops_at_nonretryable st outcomes
      (st.max_retries + 1) 0 0 none k e (by omega)
      (fun i h1 h2 => hpre i (by omega)) (by simpa using hke) hnr
    simpa [RetryModule.invoke] using this

/-- Witness for C4 at `maxRetries = 3` with 4 consecutive retryable 500s
followed by a distinguishable 4th error, and a non-retryable 401 raised
on first occurrence. -/
theorem retry_exhaustion_and_retryability_witness :
    (RetryModule.invoke
        ⟨3, 1, 60, _DEFAULT_RETRYABLE_CODES⟩
        (fun i => .error (.apiError 500 (some (i : ℚ)))) =
      (.error (.apiError 500 (some (3 : ℚ))), 4)) ∧
    (RetryModule.invoke
        ⟨3, 1, 60, _DEFAULT_RETRYABLE_CODES⟩
        (fun _ => .error (.apiError 401 none)) =
      (.error (.apiError 401 none), 1)) := by
  constructor
  · obtain ⟨e, he, hres⟩ :=
      (retry_exhaustion_and_retryability ⟨3, 1, 60, _DEFAULT_RETRYABLE_CODES⟩
        (fun i => .error (.apiError 500 (some (i : ℚ))))).1
        (fun i _ => ⟨.apiError 500 (some (i : ℚ)), rfl, rfl, rfl⟩)
    have : e = .apiError 500 (some (3 : ℚ)) := by
      simpa using he.symm
    rw [this] at hres
    exact hres
  · exact (retry_exhaustion_and_retryability ⟨3, 1, 60, _DEFAULT_RETRYABLE_CODES⟩
      (fun _ => .error (.apiError 401 none))).2.2 0 (.apiError 401 none)
      (by omega) (fun i h => absurd h (by omega)) rfl
      (by simp [RetryModule.isCaught, RetryModule.is_retryable]; decide)

/-- C5: the wait before retry `i` is `min(retryAfter, maxWait)` when the
error carries a retry-after hint, and otherwise
`min(backoffBase * 2^i + jitter, maxWait)` with the jitter drawn
uniformly from `[0, backoffBase * 2^i]` (proportional full jitter). -/
theorem retry_calculate_wait_spec (st : RetryState) (uniform : ℚ → ℚ → ℚ)
    (huniform : ∀ a b : ℚ, a ≤ b → a ≤ uniform a b ∧ uniform a b ≤ b)
    (hbase : 0 < st.backoff_base) (attempt : ℕ) :
    (∀ code ra, RetryModule.calculate_wait st uniform attempt
        (some (.apiError code (some ra))) = min ra st.max_wait) ∧
    (∀ e, (∀ code ra, e ≠ some (.apiError code (some ra))) →
      ∃ jitter, 0 ≤ jitter ∧ jitter ≤ st.backoff_base * 2 ^ attempt ∧
        RetryModule.calculate_wait st uniform attempt e =
          min (st.backoff_base * 2 ^ attempt + jitter) st.max_wait) := by
  constructor
  · intro code ra
    rfl
  · intro e hne
    have hpow : (0 : ℚ) ≤ st.backoff_base * 2 ^ attempt := by positivity
    obtain ⟨h0, h1⟩ := huniform 0 (st.backoff_base * 2 ^ attempt) hpow
    refine ⟨uniform 0 (st.backoff_base * 2 ^ attempt), h0, h1, ?_⟩
    match e with
    | none => rfl
    | some (.apiError code none) => rfl
    | some (.apiError code (some ra)) => exact absurd rfl (hne code ra)
    | some .connectError => rfl
    | some .timeoutError => rfl
    | some (.configError m) => rfl
    | some (.attributeError a) => rfl
    | some (.jsonDecodeError) => rfl
    | some (.otherError t) => rfl

/-- Witness for C5 with the default config, attempt 2, and a midpoint
random source. -/
theorem retry_calculate_wait_spec_witness :
    (∀ a b : ℚ, a ≤ b → a ≤ (a + b) / 2 ∧ (a + b) / 2 ≤ b) ∧
    ((0 : ℚ) < 1) ∧
    RetryModule.calculate_wait ⟨3, 1, 60, _DEFAULT_RETRYABLE_CODES⟩
      (fun a b => (a + b) / 2) 2 (some (.apiError 429 (some 7))) = min 7 60 := by
  refine ⟨fun a b h => ⟨by linarith, by linarith⟩, by norm_num, ?_⟩
  exact (retry_calculate_wait_spec ⟨3, 1, 60, _DEFAULT_RETRYABLE_CODES⟩
    (fun a b => (a + b) / 2) (fun a b h => ⟨by linarith, by linarith⟩)
    (by norm_num) 2).1 429 7

lemma FallbackModule.walk_all_fail (pe : PyError) :
    ∀ entries : List FallbackEntry, (∀ en ∈ entries, en.fails) →
      FallbackModule.walk pe entries = (.error pe, FallbackModule.loadedIds entries) := by
  intro entries
  induction entries with
  | nil => intro _; rfl
  | cons en rest ih =>
      intro hall
      have hen := hall en (by simp)
      have hrest := ih (fun x hx => hall x (by simp [hx]))
      rcases hen with ⟨e, he⟩ | ⟨inst, e, hload, hinv⟩
      · simp only [FallbackModule.walk, he]
        rw [hrest]
        simp [FallbackModule.loadedIds, he, List.filterMap_cons]
      · simp only [FallbackModule.walk, hload, hinv]
        rw [hrest]
        simp [FallbackModule.loadedIds, hload, List.filterMap_cons]

lemma FallbackModule.walk_first_success (pe : PyError) (pre : List FallbackEntry)
    (en : FallbackEntry) (post : List FallbackEntry) (inst : FallbackInstance)
    (r : LLMResponse) (hpre : ∀ x ∈ pre, x.fails)
    (hload : en.loadResult = .ok inst) (hinv : inst.invokeResult = .ok r) :
    FallbackModule.walk pe (pre ++ en :: post) =
      (.ok r, FallbackModule.loadedIds pre ++ [inst.id]) := by
  induction pre with
  | nil => simp [FallbackModule.walk, hload, hinv, FallbackModule.loadedIds]
  | cons x rest ih =>
      have hx := hpre x (by simp)
      have ihr := ih (fun y hy => hpre y (by simp [hy]))
      rcases hx with ⟨e, he⟩ | ⟨inst', e, hload', hinv'⟩
      · simp only [List.cons_append, FallbackModule.walk, he]
        rw [show rest.append (en :: post) = rest ++ en :: post from rfl, ihr]
        simp [FallbackModule.loadedIds, he, List.filterMap_cons]
      · simp only [List.cons_append, FallbackModule.walk, hload', hinv']
        rw [show rest.append (en :: post) = rest ++ en :: post from rfl, ihr]
        simp [FallbackModule.loadedIds, hload', List.filterMap_cons]

/-- C6: when the primary fails, the chain is walked in order and the first
succeeding fallback's response is returned with every instance
constructed during the walk released; when the chain is empty or every
entry fails, the original primary error is re-raised (never a fallback's)
and every constructed instance is still released; a successful primary
bypasses the chain. -/
theorem fallback_invoke_spec (primary : Except PyError LLMResponse)
    (entries : List FallbackEntry) :
    (∀ r, primary = .ok r → FallbackModule.invoke primary entries = (.ok r, [])) ∧
    (∀ pe, primary = .error pe → (∀ en ∈ entries, en.fails) →
      FallbackModule.invoke primary entries = (.error pe, FallbackModule.loadedIds entries)) ∧
    (∀ pe pre en post inst r, primary = .error pe →
      entries = pre ++ en :: post → (∀ x ∈ pre, x.fails) →
      en.loadResult = .ok inst → inst.invokeResult = .ok r →
      FallbackModule.invoke primary entries = (.ok r, FallbackModule.loadedIds pre ++ [inst.id])) := by
  refine ⟨?_, ?_, ?_⟩
  · intro r h; subst h; rfl
  · intro pe h hall; subst h
    simpa [FallbackModule.invoke] using FallbackModule.walk_all_fail pe entries hall
  · intro pe pre en post inst r hp hsplit hpre hload hinv
    subst hp; subst hsplit
    simpa [FallbackModule.invoke] using
      FallbackModule.walk_first_success pe pre en post inst r hpre hload hinv

/-- Witness for C6 with the spec's example: chain `[A, B]`, primary fails,
A fails, B succeeds: B's response is returned, both instances (ids 1 and
2) are closed; and with both failing, the primary's error is raised. -/
theorem fallback_invoke_spec_witness :
    (FallbackModule.invoke
        (.error (.apiError 500 none))
        [⟨"A", .ok ⟨1, .error (.apiError 502 none)⟩⟩,
         ⟨"B", .ok ⟨2, .ok wResponseB⟩⟩] =
      (.ok wResponseB, [1, 2])) ∧
    (FallbackModule.invoke
        (.error (.apiError 500 none))
        [⟨"A", .ok ⟨1, .error (.apiError 502 none)⟩⟩,
         ⟨"B", .ok ⟨2, .error (.apiError 503 none)⟩⟩] =
      (.error (.apiError 500 none), [1, 2])) := by
  constructor
  · exact (fallback_invoke_spec (.error (.apiError 500 none)) _).2.2
      (.apiError 500 none)
      [⟨"A", .ok ⟨1, .error (.apiError 502 none)⟩⟩]
      ⟨"B", .ok ⟨2, .ok wResponseB⟩⟩
      [] ⟨2, .ok wResponseB⟩
      wResponseB
      rfl rfl
      (by rintro x hx; simp at hx; subst hx
          exact Or.inr ⟨⟨1, .error (.apiError 502 none)⟩, .apiError 502 none, rfl, rfl⟩)
      rfl rfl
  · exact (fallback_invoke_spec (.error (.apiError 500 none)) _).2.1
      (.apiError 500 none) rfl
      (by rintro x hx
          simp only [List.mem_cons, List.mem_singleton] at hx
          rcases hx with h | h | h
          · subst h
            exact Or.inr ⟨⟨1, .error (.apiError 502 none)⟩, .apiError 502 none, rfl, rfl⟩
          · subst h
            exact Or.inr ⟨⟨2, .error (.apiError 503 none)⟩, .apiError 503 none, rfl, rfl⟩
          · exact absurd h (by simp))

lemma TokenBucket.acquireStep_inv (b : TokenBucket) (now : ℚ)
    (hrate : 0 ≤ b.refill_rate) (hnow : b.last_refill ≤ now) (hinv : b.Inv) :
    (b.acquireStep now).2.Inv ∧ (b.acquireStep now).2.refill_rate = b.refill_rate ∧
      (b.acquireStep now).2.capacity = b.capacity ∧ (b.acquireStep now).2.last_refill = now := by
  obtain ⟨h0, hcap⟩ := hinv
  have hcap0 : (0 : ℚ) ≤ (b.capacity : ℚ) := le_trans h0 hcap
  have helapsed : 0 ≤ (now - b.last_refill) * b.refill_rate :=
    mul_nonneg (by linarith) hrate
  have htk : (b.refill now).tokens =
      min (b.capacity : ℚ) (b.tokens + (now - b.last_refill) * b.refill_rate) := rfl
  have hmin0 : 0 ≤ (b.refill now).tokens := by
    rw [htk]; exact le_min hcap0 (by linarith)
  have hmincap : (b.refill now).tokens ≤ (b.capacity : ℚ) := by
    rw [htk]; exact min_le_left _ _
  by_cases hc : 1 ≤ (b.refill now).tokens
  · have hstep : b.acquireStep now =
        (.acquired, { b.refill now with tokens := (b.refill now).tokens - 1 }) := by
      simp only [TokenBucket.acquireStep]
      rw [if_pos hc]
    rw [hstep]
    exact ⟨⟨by show 0 ≤ (b.refill now).tokens - 1; linarith,
            by show (b.refill now).tokens - 1 ≤ (b.capacity : ℚ); linarith⟩, rfl, rfl, rfl⟩
  · have hstep : b.acquireStep now =
        (.mustWait ((1 - (b.refill now).tokens) / (b.refill now).refill_rate), b.refill now) := by
      simp only [TokenBucket.acquireStep]
      rw [if_neg hc]
    rw [hstep]
    exact ⟨⟨hmin0, by show (b.refill now).tokens ≤ (b.capacity : ℚ); exact hmincap⟩, rfl, rfl, rfl⟩

lemma TokenBucket.runAcquires_inv (times : List ℚ) :
    ∀ b : TokenBucket, 0 ≤ b.refill_rate → b.timesValid times → b.Inv →
      (b.runAcquires times).Inv := by
  induction times with
  | nil => intro b _ _ h; exact h
  | cons t ts ih =>
      intro b hrate hvalid hinv
      obtain ⟨hle, hrest⟩ := hvalid
      obtain ⟨hinv', hrate', _, _⟩ := b.acquireStep_inv t hrate hle hinv
      exact ih (b.acquireStep t).2 (hrate' ▸ hrate) hrest hinv'

lemma TokenBucket.acquireRepeat_burst (t : ℚ) :
    ∀ (n : ℕ) (b : TokenBucket), b.last_refill = t → b.tokens = (n : ℚ) →
      (n : ℚ) ≤ (b.capacity : ℚ) →
      (b.acquireRepeat t n).1 = List.replicate n .acquired ∧
        (b.acquireRepeat t n).2.tokens = 0 ∧
        (b.acquireRepeat t n).2.last_refill = t ∧
        (b.acquireRepeat t n).2.capacity = b.capacity ∧
        (b.acquireRepeat t n).2.refill_rate = b.refill_rate := by
  intro n
  induction n with
  | zero => intro b hlast htok _; exact ⟨rfl, htok, hlast, rfl, rfl⟩
  | succ m ih =>
      intro b hlast htok hcap
      have hm0 : (0 : ℚ) ≤ (m : ℚ) := by positivity
      have hmc : (m : ℚ) ≤ (b.capacity : ℚ) := by push_cast at hcap; linarith
      have hel : t - b.last_refill = 0 := by rw [hlast]; ring
      have hrefl : (b.refill t).tokens = ((m + 1 : ℕ) : ℚ) := by
        simp only [TokenBucket.refill, hel, zero_mul, add_zero, htok]
        exact min_eq_right hcap
      have h1le : (1 : ℚ) ≤ (b.refill t).tokens := by
        rw [hrefl]; push_cast; linarith
      have hstep : b.acquireStep t =
          (.acquired, { b.refill t with tokens := (b.refill t).tokens - 1 }) := by
        simp only [TokenBucket.acquireStep]
        rw [if_pos h1le]
      have htok' : (b.refill t).tokens - 1 = (m : ℚ) := by rw [hrefl]; push_cast; ring
      have hnext := ih { b.refill t with tokens := (b.refill t).tokens - 1 }
        rfl htok' (by show (m : ℚ) ≤ (b.capacity : ℚ); exact hmc)
      simp only [TokenBucket.acquireRepeat, hstep]
      refine ⟨?_, hnext.2.1, hnext.2.2.1, hnext.2.2.2.1, hnext.2.2.2.2⟩
      simp [hnext.1, List.replicate_succ]

lemma TokenBucket.acquireRepeat_snoc (t0 : ℚ) (b : TokenBucket) (m : ℕ) :
    (b.acquireRepeat t0 (m + 1)).1 =
      (b.acquireRepeat t0 m).1 ++ [((b.acquireRepeat t0 m).2.acquireStep t0).1] := by
  induction m generalizing b with
  | zero => simp [TokenBucket.acquireRepeat]
  | succ k ihk =>
      have h := ihk (b.acquireStep t0).2
      simp only [TokenBucket.acquireRepeat] at h ⊢
      rw [h]
      simp

/-- C7: a `TokenBucket` starts full; over any sequence of atomic acquire
sections with monotone clock readings, `0 ≤ tokens ≤ capacity` holds
throughout; and with capacity `N` and no elapsed time, the first `N`
acquire passes consume a token immediately (wait 0) while the `(N+1)`-th
must wait a strictly positive duration. -/
theorem token_bucket_invariant_and_burst (N : ℕ) (rate t0 : ℚ) (hrate : 0 < rate) :
    (TokenBucket.init (N : ℤ) rate t0).tokens =
      ((TokenBucket.init (N : ℤ) rate t0).capacity : ℚ) ∧
    (∀ times, (TokenBucket.init (N : ℤ) rate t0).timesValid times →
      (TokenBucket.init (N : ℤ) rate t0 |>.runAcquires times).Inv) ∧
    ((TokenBucket.init (N : ℤ) rate t0).acquireRepeat t0 N).1 = List.replicate N .acquired ∧
    (∃ w, ((TokenBucket.init (N : ℤ) rate t0).acquireRepeat t0 (N + 1)).1 =
      List.replicate N .acquired ++ [.mustWait w] ∧ 0 < w) := by
  have hinit : (TokenBucket.init (N : ℤ) rate t0).Inv := by
    constructor <;> simp [TokenBucket.init]
  have hburst := TokenBucket.acquireRepeat_burst t0 N (TokenBucket.init (N : ℤ) rate t0)
    rfl (by simp [TokenBucket.init]) (by simp [TokenBucket.init])
  obtain ⟨hout, htok, hlast, hcap, hrr⟩ := hburst
  refine ⟨by simp [TokenBucket.init], ?_, hout, ?_⟩
  · intro times hvalid
    exact TokenBucket.runAcquires_inv times _ (le_of_lt hrate) hvalid hinit
  · have hel : t0 - ((TokenBucket.init (N : ℤ) rate t0).acquireRepeat t0 N).2.last_refill = 0 := by
      rw [hlast]; ring
    have hcap0 : (0 : ℚ) ≤
        ((((TokenBucket.init (N : ℤ) rate t0).acquireRepeat t0 N).2.capacity : ℤ) : ℚ) := by
      rw [hcap]
      show (0 : ℚ) ≤ (((N : ℤ) : ℤ) : ℚ)
      push_cast
      positivity
    have hrefl : (((TokenBucket.init (N : ℤ) rate t0).acquireRepeat t0 N).2.refill t0).tokens = 0 := by
      simp only [TokenBucket.refill, hel, zero_mul, add_zero, htok]
      exact min_eq_right hcap0
    have hr2 : (((TokenBucket.init (N : ℤ) rate t0).acquireRepeat t0 N).2.refill t0).refill_rate =
        rate := by
      show ((TokenBucket.init (N : ℤ) rate t0).acquireRepeat t0 N).2.refill_rate = rate
      rw [hrr]
      rfl
    refine ⟨1 / rate, ?_, by positivity⟩
    rw [TokenBucket.acquireRepeat_snoc, hout]
    congr 1
    have hstep : (((TokenBucket.init (N : ℤ) rate t0).acquireRepeat t0 N).2.acquireStep t0).1 =
        .mustWait ((1 - (((TokenBucket.init (N : ℤ) rate t0).acquireRepeat t0 N).2.refill t0).tokens) /
          (((TokenBucket.init (N : ℤ) rate t0).acquireRepeat t0 N).2.refill t0).refill_rate) := by
      simp only [TokenBucket.acquireStep]
      rw [if_neg (by rw [hrefl]; norm_num)]
    rw [hstep, hrefl, hr2]
    norm_num

lemma reMatch_le : ∀ (fuel : ℕ) (re : RE) (t : List Char) (pos : ℕ) (k : ℕ → Option ℕ) (e : ℕ),
    (∀ q e', k q = some e' → q ≤ e') → reMatch fuel re t pos k = some e → pos ≤ e := by
  intro fuel
  induction fuel with
  | zero => intro re t pos k e hk h; simp [reMatch] at h
  | succ f ih =>
      intro re t pos k e hk h
      cases re with
      | cls p =>
          simp only [reMatch] at h
          match hg : t.get? pos with
          | some c =>
              rw [hg] at h
              simp only at h
              by_cases hp : p c
              · rw [if_pos hp] at h
                exact le_trans (by omega) (hk _ _ h)
              · rw [if_neg hp] at h; exact absurd h (by simp)
          | none => rw [hg] at h; exact absurd h (by simp)
      | seq a b =>
          simp only [reMatch] at h
          exact ih a t pos _ e (fun q e' hq => ih b t q k e' hk hq) h
      | wordB =>
          simp only [reMatch] at h
          split at h
          · exact hk _ _ h
          · exact absurd h (by simp)
      | rep lo hi a =>
          match lo with
          | l + 1 =>
              simp only [reMatch] at h
              refine ih a t pos _ e (fun q e' hq => ?_) h
              exact ih (.rep l (hi.map (· - 1)) a) t q k e' hk hq
          | 0 =>
              match hi with
              | some 0 =>
                  simp only [reMatch] at h
                  exact hk _ _ h
              | some (n + 1) =>
                  simp only [reMatch] at h
                  match hm : reMatch f a t pos
                      (fun q => if q = pos then none
                        else reMatch f (.rep 0 (some (n + 1) |>.map (· - 1)) a) t q k) with
                  | some e' =>
                      rw [hm] at h
                      injection h with h'
                      subst h'
                      refine ih a t pos _ e' (fun q eq hq => ?_) hm
                      by_cases hqp : q = pos
                      · rw [if_pos hqp] at hq; exact absurd hq (by simp)
                      · rw [if_neg hqp] at hq
                        exact ih _ t q k eq hk hq
                  | none =>
                      rw [hm] at h
                      exact hk _ _ h
              | none =>
                  simp only [reMatch] at h
                  match hm : reMatch f a t pos
                      (fun q => if q = pos then none
                        else reMatch f (.rep 0 (Option.map (· - 1) none) a) t q k) with
                  | some e' =>
                      rw [hm] at h
                      injection h with h'
                      subst h'
                      refine ih a t pos _ e' (fun q eq hq => ?_) hm
                      by_cases hqp : q = pos
                      · rw [if_pos hqp] at hq; exact absurd hq (by simp)
                      · rw [if_neg hqp] at hq
                        exact ih _ t q k eq hk hq
                  | none =>
                      rw [hm] at h
                      exact hk _ _ h

lemma reMatchEnd_le (re : RE) (t : List Char) (pos e : ℕ) (h : reMatchEnd re t pos = some e) :
    pos ≤ e :=
  reMatch_le _ re t pos _ e (fun q e' hq => by injection hq with h'; omega) h

lemma finditerAux_wf (re : RE) (t : List Char) :
    ∀ (fuel pos : ℕ), ∀ se ∈ finditerAux re t fuel pos, pos ≤ se.1 ∧ se.1 ≤ se.2 := by
  intro fuel
  induction fuel with
  | zero => intro pos se h; simp [finditerAux] at h
  | succ f ih =>
      intro pos se h
      simp only [finditerAux] at h
      by_cases hp : pos > t.length
      · rw [if_pos hp] at h; exact absurd h (by simp)
      · rw [if_neg hp] at h
        match hm : reMatchEnd re t pos with
        | some e =>
            rw [hm] at h
            replace h : se ∈ (if pos < e then (pos, e) :: finditerAux re t f e
              else (pos, e) :: finditerAux re t f (pos + 1)) := h
            have hpe : pos ≤ e := reMatchEnd_le re t pos e hm
            by_cases hlt : pos < e
            · rw [if_pos hlt] at h
              rcases List.mem_cons.mp h with heq | hmem
              · subst heq; exact ⟨le_refl _, hpe⟩
              · obtain ⟨h1, h2⟩ := ih e se hmem
                exact ⟨le_trans hpe h1, h2⟩
            · rw [if_neg hlt] at h
              rcases List.mem_cons.mp h with heq | hmem
              · subst heq; exact ⟨le_refl _, hpe⟩
              · obtain ⟨h1, h2⟩ := ih (pos + 1) se hmem
                exact ⟨by omega, h2⟩
        | none =>
            rw [hm] at h
            replace h : se ∈ finditerAux re t f (pos + 1) := h
            obtain ⟨h1, h2⟩ := ih (pos + 1) se h
            exact ⟨by omega, h2⟩

lemma allCandidates_wf (patterns : List (String × RE)) (t : List Char) :
    ∀ m ∈ allCandidates patterns t, m.start ≤ m.end_ := by
  intro m hm
  simp only [allCandidates, List.mem_flatMap, List.mem_map] at hm
  obtain ⟨p, _, se, hse, hm⟩ := hm
  have := (finditerAux_wf p.2 t (t.length + 1) 0 se hse).2
  subst hm
  exact this

lemma pyStableSort_perm (l : List PiiMatch) : (pyStableSort l).Perm l := by
  have h1 : (l.enum.insertionSort pySortRel).Perm l.enum := List.perm_insertionSort _ _
  have h2 := h1.map Prod.snd
  simpa [pyStableSort, List.enum_map_snd] using h2

lemma pyStableSort_sorted (l : List PiiMatch) : (pyStableSort l).Sorted keyRel := by
  have h := List.sorted_insertionSort pySortRel l.enum
  have h2 : (l.enum.insertionSort pySortRel).Pairwise (fun a b => keyRel a.2 b.2) := by
    refine h.imp ?_
    intro a b hab
    unfold pySortRel at hab
    unfold keyRel
    omega
  exact (List.pairwise_map).mpr h2

lemma filterOverlapping_spec :
    ∀ (l : List PiiMatch) (le0 : ℤ),
      l.Sorted keyRel → (∀ m ∈ l, m.start ≤ m.end_) →
      (filterOverlapping l le0).Sublist l ∧
      (∀ m ∈ filterOverlapping l le0, le0 ≤ (m.start : ℤ)) ∧
      (filterOverlapping l le0).Pairwise (fun a b => a.end_ ≤ b.start) ∧
      (∀ m ∈ l, m ∉ filterOverlapping l le0 →
        (m.start : ℤ) < le0 ∨
          ∃ k ∈ filterOverlapping l le0, k.start ≤ m.start ∧ (m.start : ℤ) < (k.end_ : ℤ) ∧
            (k.start = m.start → (m.end_ : ℤ) - (m.start : ℤ) ≤ (k.end_ : ℤ) - (k.start : ℤ))) := by
  intro l
  induction l with
  | nil =>
      intro le0 _ _
      exact ⟨List.Sublist.refl _, by simp [filterOverlapping], by simp [filterOverlapping],
        by simp [filterOverlapping]⟩
  | cons m rest ih =>
      intro le0 hsorted hwf
      have hsrest : rest.Sorted keyRel := hsorted.of_cons
      have hkeyhead : ∀ x ∈ rest, keyRel m x := List.rel_of_sorted_cons hsorted
      have hwfrest : ∀ x ∈ rest, x.start ≤ x.end_ := fun x hx => hwf x (by simp [hx])
      by_cases hkeep : le0 ≤ (m.start : ℤ)
      · obtain ⟨ihsub, ihge, ihpw, ihdrop⟩ := ih (m.end_ : ℤ) hsrest hwfrest
        have hout : filterOverlapping (m :: rest) le0 =
            m :: filterOverlapping rest (m.end_ : ℤ) := by
          simp only [filterOverlapping]
          rw [if_pos hkeep]
        rw [hout]
        refine ⟨List.Sublist.cons₂ m ihsub, ?_, ?_, ?_⟩
        · intro x hx
          rcases List.mem_cons.mp hx with heq | hmem
          · subst heq; exact hkeep
          · have h1 := ihge x hmem
            have h2 := hwf m (by simp)
            omega
        · refine List.pairwise_cons.mpr ⟨?_, ihpw⟩
          intro x hx
          have := ihge x hx
          omega
        · intro x hx hnx
          rcases List.mem_cons.mp hx with heq | hmem
          · subst heq
            exact absurd (by simp) hnx
          · have hnx' : x ∉ filterOverlapping rest (m.end_ : ℤ) := by
              intro hc; exact hnx (by simp [hc])
            rcases ihdrop x hmem hnx' with hlt | ⟨k, hk, h1, h2, h3⟩
            · right
              refine ⟨m, by simp, ?_, hlt, ?_⟩
              · rcases hkeyhead x hmem with h | ⟨h, _⟩
                · omega
                · omega
              · intro hse
                rcases hkeyhead x hmem with h | ⟨_, h⟩
                · omega
                · omega
            · right
              exact ⟨k, by simp [hk], h1, h2, h3⟩
      · obtain ⟨ihsub, ihge, ihpw, ihdrop⟩ := ih le0 hsrest hwfrest
        have hout : filterOverlapping (m :: rest) le0 = filterOverlapping rest le0 := by
          simp only [filterOverlapping]
          rw [if_neg hkeep]
        rw [hout]
        refine ⟨ihsub.trans (List.sublist_cons_self m rest), ihge, ihpw, ?_⟩
        intro x hx hnx
        rcases List.mem_cons.mp hx with heq | hmem
        · subst heq
          left
          omega
        · exact ihdrop x hmem hnx

/-- C3 (amended): `detect` returns pairwise non-overlapping matches
sorted by start offset, and `detect("")` returns the empty list; the
candidates are ordered by start ascending, then span length descending,
then registration order (the stable sort, modelled via index tags); and
overlap resolution keeps the earliest-starting match — every dropped
candidate overlaps a kept match of earlier-or-equal start which, at
equal start, is at least as long.  (The original "longer span wins on
overlap" only holds at equal starts; see the counterexample.) -/
theorem detect_nonoverlap_sorted_and_priority (custom : List (String × RE)) (text : String) :
    (RegexPiiDetector.detect custom text).Pairwise
      (fun a b => a.end_ ≤ b.start ∧ a.start ≤ b.start) ∧
    RegexPiiDetector.detect custom "" = [] ∧
    ((allCandidates (_BUILTIN_PATTERNS ++ custom) text.data).enum.insertionSort
      pySortRel).Sorted pySortRel ∧
    (text ≠ "" →
      ∀ m ∈ allCandidates (_BUILTIN_PATTERNS ++ custom) text.data,
        m ∉ RegexPiiDetector.detect custom text →
        ∃ k ∈ RegexPiiDetector.detect custom text,
          k.start ≤ m.start ∧ (m.start : ℤ) < (k.end_ : ℤ) ∧
          (k.start = m.start →
            (m.end_ : ℤ) - (m.start : ℤ) ≤ (k.end_ : ℤ) - (k.start : ℤ))) := by
  by_cases htext : text = ""
  · subst htext
    refine ⟨by simp [RegexPiiDetector.detect], rfl, List.sorted_insertionSort _ _, ?_⟩
    intro h; exact absurd rfl h
  · by_cases hcand : allCandidates (_BUILTIN_PATTERNS ++ custom) text.data = []
    · have hdet : RegexPiiDetector.detect custom text = [] := by
        simp only [RegexPiiDetector.detect]
        rw [if_neg htext, if_pos hcand]
      refine ⟨by simp [hdet], rfl, List.sorted_insertionSort _ _, ?_⟩
      intro _ m hm
      rw [hcand] at hm
      exact absurd hm (by simp)
    · have hdet : RegexPiiDetector.detect custom text =
          filterOverlapping
            (pyStableSort (allCandidates (_BUILTIN_PATTERNS ++ custom) text.data)) (-1) := by
        simp only [RegexPiiDetector.detect]
        rw [if_neg htext, if_neg hcand]
      have hsorted := pyStableSort_sorted (allCandidates (_BUILTIN_PATTERNS ++ custom) text.data)
      have hwf : ∀ m ∈ pyStableSort (allCandidates (_BUILTIN_PATTERNS ++ custom) text.data),
          m.start ≤ m.end_ := by
        intro m hm
        exact allCandidates_wf _ _ m ((pyStableSort_perm _).mem_iff.mp hm)
      obtain ⟨hsub, hge, hpw, hdrop⟩ := filterOverlapping_spec
        (pyStableSort (allCandidates (_BUILTIN_PATTERNS ++ custom) text.data)) (-1) hsorted hwf
      refine ⟨?_, rfl, List.sorted_insertionSort _ _, ?_⟩
      · rw [hdet]
        refine hpw.imp_of_mem ?_
        intro a b ha _ hab
        have haw : a.start ≤ a.end_ := hwf a (hsub.mem ha)
        exact ⟨hab, by omega⟩
      · intro _ m hm hnm
        rw [hdet] at hnm
        have hm' : m ∈ pyStableSort (allCandidates (_BUILTIN_PATTERNS ++ custom) text.data) :=
          (pyStableSort_perm _).mem_iff.mpr hm
        rcases hdrop m hm' hnm with hlt | ⟨k, hk, h1, h2, h3⟩
        · omega
        · exact ⟨k, by rw [hdet]; exact hk, h1, h2, h3⟩

/-- Witness for C3 on `"abcd"` with custom patterns `X = ab`, `Y = bcd`:
the dropped candidate `Y` (span [1,4)) overlaps the kept match. -/
theorem detect_nonoverlap_sorted_and_priority_witness :
    ∃ k ∈ RegexPiiDetector.detect customXY "abcd",
      k.start ≤ 1 ∧ ((1 : ℕ) : ℤ) < (k.end_ : ℤ) ∧
      (k.start = 1 → ((4 : ℕ) : ℤ) - ((1 : ℕ) : ℤ) ≤ (k.end_ : ℤ) - (k.start : ℤ)) :=
  (detect_nonoverlap_sorted_and_priority customXY "abcd").2.2.2 (by decide)
    { pii_type := "Y", start := 1, end_ := 4, matched_text := "bcd" }
    (by decide) (by decide)

/-- Counterexample to C3 as stated: on `"abcd"` the candidates `X` at
span [0,2) and `Y` at [1,4) overlap and `Y` is the longer span, yet `detect` keeps the shorter, earlier-starting `X` and drops
`Y` — "the longer span is the one kept" fails when the shorter
candidate starts earlier. -/
theorem detect_longer_wins_counterexample :
    ({ pii_type := "X", start := 0, end_ := 2, matched_text := "ab" } : PiiMatch) ∈
        allCandidates (_BUILTIN_PATTERNS ++ customXY) "abcd".data ∧
    ({ pii_type := "Y", start := 1, end_ := 4, matched_text := "bcd" } : PiiMatch) ∈
        allCandidates (_BUILTIN_PATTERNS ++ customXY) "abcd".data ∧
    (1 : ℕ) < 2 ∧ (4 : ℕ) - 1 > 2 - 0 ∧
    RegexPiiDetector.detect customXY "abcd" =
      [{ pii_type := "X", start := 0, end_ := 2, matched_text := "ab" }] := by
  refine ⟨by decide, by decide, by decide, by decide, by decide⟩

/-- Witness for C7 at capacity 2, refill rate 1, initial clock 0. -/
theorem token_bucket_invariant_and_burst_witness :
    (0 : ℚ) < 1 ∧
    ((TokenBucket.init ((2 : ℕ) : ℤ) 1 0).acquireRepeat 0 2).1 =
      List.replicate 2 .acquired ∧
    (∃ w, ((TokenBucket.init ((2 : ℕ) : ℤ) 1 0).acquireRepeat 0 (2 + 1)).1 =
      List.replicate 2 .acquired ++ [.mustWait w] ∧ 0 < w) := by
  have h := token_bucket_invariant_and_burst 2 1 0 (by norm_num)
  exact ⟨by norm_num, h.2.2.1, h.2.2.2⟩

/-- C1 (code_bug evaluation): `LLMResponse` declares no `metadata` field,
so `_attach_signature`'s read of `response.metadata` raises
`AttributeError` on every call, and every `SecurityModule.invoke` with
signing enabled whose earlier phases succeed raises it instead of
returning a signed response. -/
theorem security_signing_metadata_attribute_error :
    ("metadata" ∈ LLMResponse.fieldNames) = False ∧
    (∀ (r : LLMResponse) (sig alg : String),
      SecurityModule.attach_signature r sig alg = .error (.attributeError "metadata")) ∧
    (∀ (st : SecurityState) (signer : List Char → String) (mn : String)
        (inner : List Message → Option (List Tool) → Except PyError LLMResponse)
        (messages messages' : List Message) (tools : Option (List Tool)) (r : LLMResponse),
      st.signing_enabled = true →
      (if st.pii_enabled then SecurityModule.redact_messages st.custom_patterns messages
        else .ok messages) = .ok messages' →
      inner messages' tools = .ok r →
      SecurityModule.invoke st signer mn inner messages tools =
        .error (.attributeError "metadata")) := by
  refine ⟨by simp [LLMResponse.fieldNames], ?_, ?_⟩
  · intro r sig alg
    rfl
  · intro st signer mn inner messages messages' tools r hsig hm hi
    cases hpe : st.pii_enabled with
    | true =>
        rw [hpe] at hm
        simp only [if_true] at hm
        simp [SecurityModule.invoke, bind, Except.bind, hpe, hm, hi, hsig,
          SecurityModule.attach_signature, LLMResponse.getattr_metadata,
          LLMResponse.fieldNames]
    | false =>
        rw [hpe] at hm
        simp only [Bool.false_eq_true, if_false] at hm
        injection hm with hm'
        subst hm'
        simp [SecurityModule.invoke, bind, Except.bind, hpe, hi, hsig,
          SecurityModule.attach_signature, LLMResponse.getattr_metadata,
          LLMResponse.fieldNames]

/-- Witness for C1: signing enabled, PII disabled, inner succeeding with
`echoResponse` — invoke raises `AttributeError` for `metadata`. -/
theorem security_signing_metadata_attribute_error_witness :
    SecurityModule.invoke ⟨false, true, [], "hmac-sha256"⟩ (fun _ => "sig") "m"
      (fun _ _ => .ok echoResponse)
      [{ role := "user", content := .str "hello" }] none =
      .error (.attributeError "metadata") :=
  security_signing_metadata_attribute_error.2.2 ⟨false, true, [], "hmac-sha256"⟩
    (fun _ => "sig") "m" (fun _ _ => .ok echoResponse)
    [{ role := "user", content := .str "hello" }]
    [{ role := "user", content := .str "hello" }] none echoResponse rfl rfl rfl

/-- C2 (amended): with PII redaction enabled the inner target receives
the redacted messages; plain-string content and text blocks are redacted
by value; tool-result string content is redacted; tool-result block
lists and image blocks pass through unchanged; tool-use arguments are
redacted by scanning their entire `json.dumps` serialization (keys and
non-string leaves included, not only string leaf values) and re-parsing
it when changed; a string response reaches the caller redacted; and the
spec's concrete examples hold (`"My SSN is 123-45-6789"` reaches the
inner provider as `"My SSN is [PII:SSN]"`, a `"Contact: a@b.com"`
response returns as `"Contact: [PII:EMAIL]"`). -/
theorem security_pii_redaction_spec :
    (∀ (st : SecurityState) (signer : List Char → String) (mn : String)
        (inner : List Message → Option (List Tool) → Except PyError LLMResponse)
        (messages messages' : List Message) (tools : Option (List Tool)),
      st.pii_enabled = true →
      SecurityModule.redact_messages st.custom_patterns messages = .ok messages' →
      SecurityModule.invoke st signer mn inner messages tools =
        (inner messages' tools).bind (fun response =>
          if st.signing_enabled then
            SecurityModule.attach_signature
              (SecurityModule.redact_response st.custom_patterns response)
              (signer (canonical_payload messages' tools mn)) st.signing_algorithm
          else .ok (SecurityModule.redact_response st.custom_patterns response))) ∧
    (∀ (cp : List (String × RE)) (tx : String) (rest : List ContentBlock),
      SecurityModule.redact_blocks cp (.text tx :: rest) =
        (SecurityModule.redact_blocks cp rest).map
          (fun r => .text (SecurityModule.redact_str cp tx) :: r)) ∧
    (∀ (cp : List (String × RE)) (tid c : String) (rest : List ContentBlock),
      SecurityModule.redact_blocks cp (.toolResultStr tid c :: rest) =
        (SecurityModule.redact_blocks cp rest).map
          (fun r => .toolResultStr tid (SecurityModule.redact_str cp c) :: r)) ∧
    (∀ (cp : List (String × RE)) (tid : String) (bs rest : List ContentBlock),
      SecurityModule.redact_blocks cp (.toolResultBlocks tid bs :: rest) =
        (SecurityModule.redact_blocks cp rest).map
          (fun r => .toolResultBlocks tid bs :: r)) ∧
    (∀ (cp : List (String × RE)) (src mt : String) (rest : List ContentBlock),
      SecurityModule.redact_blocks cp (.image src mt :: rest) =
        (SecurityModule.redact_blocks cp rest).map (fun r => .image src mt :: r)) ∧
    (∀ (cp : List (String × RE)) (id name : String) (args : List (String × JValue))
        (rest : List ContentBlock),
      SecurityModule.redact_str cp ((json_dumps [',', ' '] [':', ' '] (.obj args)).asString) =
        (json_dumps [',', ' '] [':', ' '] (.obj args)).asString →
      SecurityModule.redact_blocks cp (.toolUse id name args :: rest) =
        (SecurityModule.redact_blocks cp rest).map (fun r => .toolUse id name args :: r)) ∧
    (∀ (cp : List (String × RE)) (id name : String) (args newargs : List (String × JValue))
        (rest : List ContentBlock),
      SecurityModule.redact_str cp ((json_dumps [',', ' '] [':', ' '] (.obj args)).asString) ≠
        (json_dumps [',', ' '] [':', ' '] (.obj args)).asString →
      json_loads (SecurityModule.redact_str cp
        ((json_dumps [',', ' '] [':', ' '] (.obj args)).asString)).data = some (.obj newargs) →
      SecurityModule.redact_blocks cp (.toolUse id name args :: rest) =
        (SecurityModule.redact_blocks cp rest).map (fun r => .toolUse id name newargs :: r)) ∧
    (∀ (cp : List (String × RE)) (resp : LLMResponse) (c : String),
      resp.content = some c →
      (SecurityModule.redact_response cp resp).content =
          some (SecurityModule.redact_str cp c) ∧
        (SecurityModule.redact_response cp resp).tool_calls = resp.tool_calls ∧
        (SecurityModule.redact_response cp resp).usage = resp.usage ∧
        (SecurityModule.redact_response cp resp).model = resp.model ∧
        (SecurityModule.redact_response cp resp).stop_reason = resp.stop_reason) ∧
    (SecurityModule.redact_messages []
        [{ role := "user", content := .str "My SSN is 123-45-6789" }] =
      .ok [{ role := "user", content := .str "My SSN is [PII:SSN]" }]) ∧
    (SecurityModule.invoke ⟨true, false, [], "hmac-sha256"⟩ (fun _ => "sig") "m"
        (fun _ _ => .ok echoResponse) [{ role := "user", content := .str "hi" }] none =
      .ok { echoResponse with content := some "Contact: [PII:EMAIL]" }) := by
  refine ⟨?_, ?_, ?_, ?_, ?_, ?_, ?_, ?_, ?_, ?_⟩
  · intro st signer mn inner messages messages' tools hpii hm
    simp only [SecurityModule.invoke, bind, Except.bind, hpii, if_true, hm]
    cases hi : inner messages' tools with
    | error e => rfl
    | ok r => rfl
  · intro cp tx rest
    rfl
  · intro cp tid c rest
    rfl
  · intro cp tid bs rest
    rfl
  · intro cp src mt rest
    rfl
  · intro cp id name args rest h
    simp only [SecurityModule.redact_blocks]
    rw [if_neg (by simp [h])]
  · intro cp id name args newargs rest hne hload
    simp only [SecurityModule.redact_blocks]
    rw [if_pos hne, hload]
  · intro cp resp c hc
    simp only [SecurityModule.redact_response, hc]
    by_cases hr : SecurityModule.redact_str cp c ≠ c
    · rw [if_pos hr]
      exact ⟨rfl, rfl, rfl, rfl, rfl⟩
    · rw [if_neg hr]
      simp only [not_not] at hr
      exact ⟨by rw [hc, hr], rfl, rfl, rfl, rfl⟩
  · rfl
  · rfl

/-- Witness for C2: the pipeline factorization at a concrete
configuration and message list, with both hypotheses discharged by
evaluation. -/
theorem security_pii_redaction_spec_witness :
    SecurityModule.invoke ⟨true, false, [], "x"⟩ (fun _ => "sig") "m"
      (fun _ _ => .ok echoResponse)
      [{ role := "user", content := .str "My SSN is 123-45-6789" }] none =
      ((fun (_ : List Message) (_ : Option (List Tool)) => Except.ok echoResponse)
          [{ role := "user", content := .str "My SSN is [PII:SSN]" }] none).bind
        (fun response =>
          if (SecurityState.mk true false [] "x").signing_enabled then
            SecurityModule.attach_signature
              (SecurityModule.redact_response [] response)
              ((fun _ => "sig") (canonical_payload
                [{ role := "user", content := .str "My SSN is [PII:SSN]" }] none "m"))
              "x"
          else .ok (SecurityModule.redact_response [] response)) :=
  security_pii_redaction_spec.1 ⟨true, false, [], "x"⟩ (fun _ => "sig") "m"
    (fun _ _ => .ok echoResponse)
    [{ role := "user", content := .str "My SSN is 123-45-6789" }]
    [{ role := "user", content := .str "My SSN is [PII:SSN]" }] none rfl rfl

/-- Counterexample to C2 as stated: in a tool-use block with arguments
`\x7b"a@b.com": 1\x7d`, the dict KEY `"a@b.com"` — a string key, not a
string leaf value — is scanned and rewritten to `"[PII:EMAIL]"`,
because the code scans the entire JSON serialization of the arguments
rather than only string leaf values. -/
theorem security_tooluse_key_scanned_counterexample :
    SecurityModule.redact_blocks [] [.toolUse "tu1" "lookup" [("a@b.com", .int 1)]] =
      .ok [.toolUse "tu1" "lookup" [("[PII:EMAIL]", .int 1)]] ∧
    ("a@b.com" : String) ≠ "[PII:EMAIL]" :=
  ⟨rfl, by decide⟩

lemma config_get_single_miss (k key : String) (v : CVal) (h : k ≠ key) :
    Config.get [(k, v)] key = none := by
  have hb : (k == key) = false := beq_eq_false_iff_ne.mpr h
  simp [Config.get, List.find?, hb]

/-- C9 (amended): out-of-range values raise `ConfigError` at
construction for all four modules, and `SecurityModule` raises
`ConfigError` on unknown keys; but `RetryModule`, `FallbackModule` and
`RateLimitModule` perform no unknown-key check — a config holding only
an unrecognized key constructs successfully with all defaults. -/
theorem module_init_validation_spec :
    (∀ v : ℤ, v < 0 → RetryModule.init [("max_retries", .int v)] =
      .error (.configError "max_retries must be >= 0")) ∧
    (∀ q : ℚ, q ≤ 0 → RetryModule.init [("backoff_base_seconds", .rat q)] =
      .error (.configError "backoff_base_seconds must be > 0")) ∧
    (∀ q : ℚ, q ≤ 0 → RetryModule.init [("max_wait_seconds", .rat q)] =
      .error (.configError "max_wait_seconds must be > 0")) ∧
    (∀ chain : List String, chain.length > _MAX_FALLBACK_CHAIN_LENGTH →
      FallbackModule.init [("chain", .strList chain)] =
        .error (.configError "Fallback chain too long")) ∧
    (∀ (v : ℤ) (name : String) (registry : List (String × TokenBucket)) (now : ℚ), v ≤ 0 →
      RateLimitModule.init [("requests_per_minute", .int v)] name registry now =
        .error (.configError "requests_per_minute must be > 0")) ∧
    (∀ (rpm burst : ℤ) (name : String) (registry : List (String × TokenBucket)) (now : ℚ),
      0 < rpm → burst < 1 →
      RateLimitModule.init [("requests_per_minute", .int rpm), ("burst_capacity", .int burst)]
          name registry now =
        .error (.configError "burst_capacity must be >= 1")) ∧
    (∀ (cfg : Config) (env : String → Option String),
      (∃ k ∈ Config.keys cfg, k ∉ _VALID_CONFIG_KEYS) →
      SecurityModule.init cfg env =
        .error (.configError "Unknown SecurityModule config keys")) ∧
    (∀ (k : String) (v : CVal), k ∉ retryKnownKeys →
      RetryModule.init [(k, v)] = .ok ⟨3, 1, 60, _DEFAULT_RETRYABLE_CODES⟩) ∧
    (∀ (k : String) (v : CVal), k ≠ "chain" → FallbackModule.init [(k, v)] = .ok []) ∧
    (∀ (k : String) (v : CVal) (name : String) (now : ℚ),
      k ∉ ["requests_per_minute", "burst_capacity"] →
      RateLimitModule.init [(k, v)] name [] now =
        .ok (⟨name, TokenBucket.init 60 1 now⟩, [(name, TokenBucket.init 60 1 now)])) := by
  refine ⟨?_, ?_, ?_, ?_, ?_, ?_, ?_, ?_, ?_, ?_⟩
  · intro v hv
    have h : RetryModule.init [("max_retries", .int v)] =
        if v < 0 then .error (.configError "max_retries must be >= 0")
        else .ok ⟨v.toNat, 1, 60, _DEFAULT_RETRYABLE_CODES⟩ := rfl
    rw [h, if_pos hv]
  · intro q hq
    have h : RetryModule.init [("backoff_base_seconds", .rat q)] =
        if q ≤ 0 then .error (.configError "backoff_base_seconds must be > 0")
        else .ok ⟨3, q, 60, _DEFAULT_RETRYABLE_CODES⟩ := rfl
    rw [h, if_pos hq]
  · intro q hq
    have h : RetryModule.init [("max_wait_seconds", .rat q)] =
        if q ≤ 0 then .error (.configError "max_wait_seconds must be > 0")
        else .ok ⟨3, 1, q, _DEFAULT_RETRYABLE_CODES⟩ := rfl
    rw [h, if_pos hq]
  · intro chain hlen
    have h : FallbackModule.init [("chain", .strList chain)] =
        if chain.length > _MAX_FALLBACK_CHAIN_LENGTH then
          .error (.configError "Fallback chain too long")
        else .ok chain := rfl
    rw [h, if_pos hlen]
  · intro v name registry now hv
    have h : RateLimitModule.init [("requests_per_minute", .int v)] name registry now =
        if v ≤ 0 then .error (.configError "requests_per_minute must be > 0")
        else if v < 1 then .error (.configError "burst_capacity must be >= 1")
        else
          .ok (⟨name, (_get_or_create_bucket registry name v ((v : ℚ) / 60) now).1⟩,
            (_get_or_create_bucket registry name v ((v : ℚ) / 60) now).2) := rfl
    rw [h, if_pos hv]
  · intro rpm burst name registry now hrpm hburst
    have h : RateLimitModule.init
        [("requests_per_minute", .int rpm), ("burst_capacity", .int burst)]
        name registry now =
        if rpm ≤ 0 then .error (.configError "requests_per_minute must be > 0")
        else if burst < 1 then .error (.configError "burst_capacity must be >= 1")
        else
          .ok (⟨name, (_get_or_create_bucket registry name burst ((rpm : ℚ) / 60) now).1⟩,
            (_get_or_create_bucket registry name burst ((rpm : ℚ) / 60) now).2) := rfl
    rw [h, if_neg (by omega), if_pos hburst]
  · intro cfg env hex
    obtain ⟨k, hk, hnv⟩ := hex
    have hmem : k ∈ (Config.keys cfg).filter (fun k => decide (k ∉ _VALID_CONFIG_KEYS)) :=
      List.mem_filter.mpr ⟨hk, by simpa using hnv⟩
    have hne : (Config.keys cfg).filter (fun k => decide (k ∉ _VALID_CONFIG_KEYS)) ≠ [] :=
      List.ne_nil_of_mem hmem
    simp only [SecurityModule.init]
    rw [if_pos hne]
  · intro k v hk
    have h1 : Config.get [(k, v)] "max_retries" = none :=
      config_get_single_miss k _ v (fun h => hk (by simp [retryKnownKeys, h]))
    have h2 : Config.get [(k, v)] "backoff_base_seconds" = none :=
      config_get_single_miss k _ v (fun h => hk (by simp [retryKnownKeys, h]))
    have h3 : Config.get [(k, v)] "max_wait_seconds" = none :=
      config_get_single_miss k _ v (fun h => hk (by simp [retryKnownKeys, h]))
    have h4 : Config.get [(k, v)] "retryable_status_codes" = none :=
      config_get_single_miss k _ v (fun h => hk (by simp [retryKnownKeys, h]))
    simp only [RetryModule.init, Config.getInt, Config.getNum, Config.getIntList,
      h1, h2, h3, h4, bind, Except.bind]
    norm_num
    rfl
  · intro k v hk
    have h1 : Config.get [(k, v)] "chain" = none := config_get_single_miss k _ v hk
    simp only [FallbackModule.init, Config.getStrList, h1, bind, Except.bind]
    norm_num
  · intro k v name now hk
    have h1 : Config.get [(k, v)] "requests_per_minute" = none :=
      config_get_single_miss k _ v (fun h => hk (by simp [h]))
    have h2 : Config.get [(k, v)] "burst_capacity" = none :=
      config_get_single_miss k _ v (fun h => hk (by simp [h]))
    simp only [RateLimitModule.init, Config.getInt, h1, h2, bind, Except.bind]
    norm_num
    simp [_get_or_create_bucket, List.find?]

/-- Witness for C9 at concrete inputs: a negative `max_retries` fails, a
config whose only key is unknown to `SecurityModule` fails, and a
too-long fallback chain fails. -/
theorem module_init_validation_spec_witness :
    RetryModule.init [("max_retries", .int (-1))] =
      .error (.configError "max_retries must be >= 0") ∧
    SecurityModule.init [("bogus_key", .bool true)] (fun _ => none) =
      .error (.configError "Unknown SecurityModule config keys") ∧
    FallbackModule.init
        [("chain", .strList ["a","b","c","d","e","f","g","h","i","j","k"])] =
      .error (.configError "Fallback chain too long") := by
  refine ⟨?_, ?_, ?_⟩
  · exact module_init_validation_spec.1 (-1) (by norm_num)
  · exact module_init_validation_spec.2.2.2.2.2.2.1 [("bogus_key", .bool true)] (fun _ => none)
      ⟨"bogus_key", by simp [Config.keys], by simp [_VALID_CONFIG_KEYS]⟩
  · exact module_init_validation_spec.2.2.2.1 ["a","b","c","d","e","f","g","h","i","j","k"]
      (by simp [_MAX_FALLBACK_CHAIN_LENGTH])

/-- Counterexample to C9 as stated: `RetryModule` constructed with a
config containing only an unknown key does not raise `ConfigError` at
construction — it succeeds with all defaults (and the unknown key is
silently ignored thereafter). -/
theorem retry_unknown_key_accepted_counterexample :
    RetryModule.init [("bogus_key", .bool true)] =
      .ok ⟨3, 1, 60, _DEFAULT_RETRYABLE_CODES⟩ ∧
    (∀ e, RetryModule.init [("bogus_key", .bool true)] ≠ .error e) := by
  have h : RetryModule.init [("bogus_key", .bool true)] =
      .ok ⟨3, 1, 60, _DEFAULT_RETRYABLE_CODES⟩ := rfl
  exact ⟨h, fun e hc => by rw [h] at hc; exact Except.noConfusion hc⟩

/-- C10: the shared per-provider bucket is created from the first
`RateLimitModule`'s settings; every later construction for the same
provider gets the exact existing bucket and leaves the registry
unchanged, its own (validated) `requests_per_minute`/`burst_capacity`
having no effect on the bucket. -/
theorem rate_limit_bucket_sharing (name : String) (registry : List (String × TokenBucket))
    (rpm burst : ℤ) (now : ℚ) (hrpm : 0 < rpm) (hburst : 1 ≤ burst) :
    (registry.find? (fun p => p.1 == name) = none →
      RateLimitModule.init
          [("requests_per_minute", .int rpm), ("burst_capacity", .int burst)]
          name registry now =
        .ok (⟨name, TokenBucket.init burst ((rpm : ℚ) / 60) now⟩,
          registry ++ [(name, TokenBucket.init burst ((rpm : ℚ) / 60) now)])) ∧
    (∀ p : String × TokenBucket, registry.find? (fun q => q.1 == name) = some p →
      RateLimitModule.init
          [("requests_per_minute", .int rpm), ("burst_capacity", .int burst)]
          name registry now =
        .ok (⟨name, p.2⟩, registry)) := by
  have h : RateLimitModule.init
      [("requests_per_minute", .int rpm), ("burst_capacity", .int burst)]
      name registry now =
      if rpm ≤ 0 then .error (.configError "requests_per_minute must be > 0")
      else if burst < 1 then .error (.configError "burst_capacity must be >= 1")
      else
        .ok (⟨name, (_get_or_create_bucket registry name burst ((rpm : ℚ) / 60) now).1⟩,
          (_get_or_create_bucket registry name burst ((rpm : ℚ) / 60) now).2) := rfl
  rw [h, if_neg (by omega), if_neg (by omega)]
  constructor
  · intro hfind
    simp [_get_or_create_bucket, hfind]
  · intro p hfind
    simp [_get_or_create_bucket, hfind]

/-- Witness for C10: a registry already holding a bucket for
`"openai"` with capacity 5 and rate 1/2; a later module constructed
with `rpm = 120`, `burst = 7` still gets that exact bucket, unchanged,
and the registry is untouched. -/
theorem rate_limit_bucket_sharing_witness :
    RateLimitModule.init
        [("requests_per_minute", .int 120), ("burst_capacity", .int 7)]
        "openai" [("openai", TokenBucket.init 5 (1 / 2) 0)] 9 =
      .ok (⟨"openai", TokenBucket.init 5 (1 / 2) 0⟩,
        [("openai", TokenBucket.init 5 (1 / 2) 0)]) := by
  have h := (rate_limit_bucket_sharing "openai" [("openai", TokenBucket.init 5 (1 / 2) 0)]
    120 7 9 (by norm_num) (by norm_num)).2
    ("openai", TokenBucket.init 5 (1 / 2) 0) (by simp [List.find?])
  exact h

lemma skipWs_cons_of_not_ws (c : Char) (t : List Char) (h : ¬wsChar c) :
    skipWs (c :: t) = c :: t := by
  simp only [skipWs]
  rw [if_neg (by simpa [wsChar] using h)]

lemma parseHexDigit_hexDigitChar : ∀ d : ℕ, d < 16 → parseHexDigit (hexDigitChar d) = some d := by
  decide

lemma hex16_recombine (n : ℕ) (h : n < 65536) :
    ((n / 4096 % 16 * 16 + n / 256 % 16) * 16 + n / 16 % 16) * 16 + n % 16 = n := by
  omega

lemma char_toNat_valid (c : Char) : c.toNat < 55296 ∨ (57343 < c.toNat ∧ c.toNat < 1114112) := by
  have hv : c.toNat.isValidChar := c.valid
  rcases hv with h | ⟨h1, h2⟩
  · exact Or.inl h
  · exact Or.inr ⟨h1, h2⟩


lemma parseHex4_hex4 (n : ℕ) (h : n < 65536) (t : List Char) :
    parseHex4 (hex4 n ++ t) = some (n, t) := by
  simp only [hex4, List.cons_append, List.nil_append, parseHex4]
  rw [parseHexDigit_hexDigitChar _ (by omega), parseHexDigit_hexDigitChar _ (by omega),
    parseHexDigit_hexDigitChar _ (by omega), parseHexDigit_hexDigitChar _ (by omega)]
  simp only []
  rw [hex16_recombine n h]

lemma parseUEsc_notSurr (n : ℕ) (h : n < 65536) (hn1 : ¬(55296 ≤ n ∧ n < 56320))
    (hn2 : ¬(56320 ≤ n ∧ n < 57344)) (t : List Char) :
    parseUEsc (hex4 n ++ t) = some (Char.ofNat n, t) := by
  simp only [parseUEsc]
  rw [parseHex4_hex4 n h t]
  simp only []
  rw [if_neg hn1, if_neg hn2]

lemma parseUEsc_surrPair (m : ℕ) (hm : m < 1048576) (t : List Char) :
    parseUEsc (hex4 (55296 + m / 1024) ++ '\\' :: 'u' :: (hex4 (56320 + m % 1024) ++ t)) =
      some (Char.ofNat (65536 + m), t) := by
  simp only [parseUEsc]
  rw [parseHex4_hex4 (55296 + m / 1024) (by omega)]
  simp only []
  rw [if_pos (by omega)]
  rw [if_pos ⟨trivial, trivial⟩]
  rw [parseHex4_hex4 (56320 + m % 1024) (by omega)]
  simp only []
  rw [if_pos (by omega)]
  have hx : 65536 + (55296 + m / 1024 - 55296) * 1024 + (56320 + m % 1024 - 56320) =
      65536 + m := by omega
  rw [hx]

lemma parseStrAux_uesc (f : ℕ) (u : List Char) (d : Char) (t' : List Char)
    (h : parseUEsc u = some (d, t')) :
    parseStrAux (f + 1) ('\\' :: 'u' :: u) =
      (parseStrAux f t').map (fun q => (d :: q.1, q.2)) := by
  simp only [parseStrAux]
  rw [if_neg (by decide)]
  simp only [parseEscUnit, eq_self_iff_true, if_true]
  rw [h]

lemma parseStrAux_escChar (c : Char) (t : List Char) (fuel : ℕ) :
    parseStrAux (fuel + 1) (escChar c ++ t) =
      (parseStrAux fuel t).map (fun q => (c :: q.1, q.2)) := by
  by_cases h1 : c = '"'
  · subst h1
    simp +decide [parseStrAux, escChar, parseEscUnit, simpleEsc]
  by_cases h2 : c = '\\'
  · subst h2
    simp +decide [parseStrAux, escChar, parseEscUnit, simpleEsc]
  by_cases h3 : c = '\n'
  · subst h3
    simp +decide [parseStrAux, escChar, parseEscUnit, simpleEsc]
  by_cases h4 : c = '\r'
  · subst h4
    simp +decide [parseStrAux, escChar, parseEscUnit, simpleEsc]
  by_cases h5 : c = '\t'
  · subst h5
    simp +decide [parseStrAux, escChar, parseEscUnit, simpleEsc]
  by_cases h6 : c.toNat = 8
  · have hc : c = Char.ofNat 8 := by rw [← h6, Char.ofNat_toNat]
    subst hc
    simp +decide [parseStrAux, escChar, parseEscUnit, simpleEsc]
  by_cases h7 : c.toNat = 12
  · have hc : c = Char.ofNat 12 := by rw [← h7, Char.ofNat_toNat]
    subst hc
    simp +decide [parseStrAux, escChar, parseEscUnit, simpleEsc]
  by_cases h8 : c.toNat < 32
  · have hesc : escChar c = '\\' :: 'u' :: hex4 c.toNat := by
      simp only [escChar]
      rw [if_neg h1, if_neg h2, if_neg h3, if_neg h4, if_neg h5, if_neg h6, if_neg h7,
        if_pos h8]
    have hU : parseUEsc (hex4 c.toNat ++ t) = some (c, t) := by
      rw [parseUEsc_notSurr c.toNat (by omega) (by omega) (by omega) t, Char.ofNat_toNat]
    rw [hesc, List.cons_append, List.cons_append, parseStrAux_uesc fuel _ c t hU]
  by_cases h9 : c.toNat ≤ 126
  · have hesc : escChar c = [c] := by
      simp only [escChar]
      rw [if_neg h1, if_neg h2, if_neg h3, if_neg h4, if_neg h5, if_neg h6, if_neg h7,
        if_neg h8, if_pos h9]
    rw [hesc]
    simp only [List.cons_append, List.nil_append, parseStrAux]
    rw [if_neg h1]
    simp only [parseEscUnit]
    rw [if_neg h2, if_neg h8]
  by_cases h10 : c.toNat < 65536
  · have hval := char_toNat_valid c
    have hesc : escChar c = '\\' :: 'u' :: hex4 c.toNat := by
      simp only [escChar]
      rw [if_neg h1, if_neg h2, if_neg h3, if_neg h4, if_neg h5, if_neg h6, if_neg h7,
        if_neg h8, if_neg h9, if_pos h10]
    have hU : parseUEsc (hex4 c.toNat ++ t) = some (c, t) := by
      rw [parseUEsc_notSurr c.toNat (by omega) (by omega) (by omega) t, Char.ofNat_toNat]
    rw [hesc, List.cons_append, List.cons_append, parseStrAux_uesc fuel _ c t hU]
  · have hval := char_toNat_valid c
    have hesc : escChar c =
        ('\\' :: 'u' :: hex4 (55296 + (c.toNat - 65536) / 1024)) ++
          ('\\' :: 'u' :: hex4 (56320 + (c.toNat - 65536) % 1024)) := by
      simp only [escChar]
      rw [if_neg h1, if_neg h2, if_neg h3, if_neg h4, if_neg h5, if_neg h6, if_neg h7,
        if_neg h8, if_neg h9, if_neg h10]
    have hm : c.toNat - 65536 < 1048576 := by omega
    have hesc2 : escChar c ++ t =
        '\\' :: 'u' :: (hex4 (55296 + (c.toNat - 65536) / 1024) ++
          '\\' :: 'u' :: (hex4 (56320 + (c.toNat - 65536) % 1024) ++ t)) := by
      rw [hesc]
      simp only [List.cons_append, List.append_assoc]
    have hU : parseUEsc (hex4 (55296 + (c.toNat - 65536) / 1024) ++
        '\\' :: 'u' :: (hex4 (56320 + (c.toNat - 65536) % 1024) ++ t)) = some (c, t) := by
      rw [parseUEsc_surrPair (c.toNat - 65536) hm t]
      have h65 : 65536 + (c.toNat - 65536) = c.toNat := by omega
      rw [h65, Char.ofNat_toNat]
    rw [hesc2, parseStrAux_uesc fuel _ c t hU]

lemma parseStrAux_roundtrip : ∀ (cs : List Char) (fuel : ℕ) (t : List Char),
    cs.length < fuel → parseStrAux fuel (cs.flatMap escChar ++ '"' :: t) = some (cs, t) := by
  intro cs
  induction cs with
  | nil =>
      intro fuel t hf
      match fuel, hf with
      | f + 1, _ =>
          simp +decide [parseStrAux]
  | cons c cs ih =>
      intro fuel t hf
      match fuel, hf with
      | f + 1, hf =>
          simp only [List.length_cons] at hf
          have hsplit : (c :: cs).flatMap escChar ++ '"' :: t =
              escChar c ++ (cs.flatMap escChar ++ '"' :: t) := by
            simp [List.flatMap_cons, List.append_assoc]
          rw [hsplit, parseStrAux_escChar, ih f t (by omega)]
          rfl

lemma digitCharFacts : ∀ k, k < 10 → (Char.ofNat (48 + k)).isDigit = true ∧
    (Char.ofNat (48 + k)).toNat = 48 + k := by
  decide

lemma natToCharsAux_append : ∀ fuel n acc,
    natToCharsAux fuel n acc = natToCharsAux fuel n [] ++ acc := by
  intro fuel
  induction fuel with
  | zero => intro n acc; rfl
  | succ f ih =>
      intro n acc
      by_cases h : n < 10
      · simp only [natToCharsAux, if_pos h]; rfl
      · simp only [natToCharsAux, if_neg h]
        rw [ih (n / 10) (Char.ofNat (48 + n % 10) :: acc),
            ih (n / 10) [Char.ofNat (48 + n % 10)]]
        simp

lemma natToCharsAux_head : ∀ fuel n, n < 10 ^ fuel → 0 < fuel →
    ∃ d ds, natToCharsAux fuel n [] = d :: ds ∧ d.isDigit = true ∧
      48 ≤ d.toNat ∧ d.toNat ≤ 57 ∧ (d = '0' → n = 0) := by
  intro fuel
  induction fuel with
  | zero => intro n _ h0; omega
  | succ f ih =>
      intro n hn _
      by_cases h : n < 10
      · refine ⟨Char.ofNat (48 + n), [], ?_, (digitCharFacts n h).1, ?_, ?_, ?_⟩
        · simp only [natToCharsAux, if_pos h]
        · rw [(digitCharFacts n h).2]; omega
        · rw [(digitCharFacts n h).2]; omega
        · intro hd
          have h48 := congrArg Char.toNat hd
          rw [(digitCharFacts n h).2] at h48
          have h0 : ('0').toNat = 48 := rfl
          omega
      · have hf : 0 < f := by
          rcases Nat.eq_zero_or_pos f with hf0 | hf0
          · subst hf0; norm_num at hn; omega
          · exact hf0
        have hdiv : n / 10 < 10 ^ f := by
          apply Nat.div_lt_of_lt_mul
          rw [mul_comm, ← pow_succ]
          exact hn
        obtain ⟨d, ds, hds, h1, h2, h3, h4⟩ := ih (n / 10) hdiv hf
        refine ⟨d, ds ++ [Char.ofNat (48 + n % 10)], ?_, h1, h2, h3, ?_⟩
        · simp only [natToCharsAux, if_neg h]
          rw [natToCharsAux_append f (n / 10) [Char.ofNat (48 + n % 10)], hds]
          rfl
        · intro hd
          have := h4 hd
          omega

lemma parseDigitsAux_natToCharsAux : ∀ fuel n rest a, n < 10 ^ fuel →
    parseDigitsAux (natToCharsAux fuel n rest) a =
      parseDigitsAux rest (a * 10 ^ (natToCharsAux fuel n []).length + n) := by
  intro fuel
  induction fuel with
  | zero =>
      intro n rest a hn
      have h0 : n = 0 := by
        norm_num at hn
        omega
      subst h0
      simp [natToCharsAux]
  | succ f ih =>
      intro n rest a hn
      by_cases h : n < 10
      · simp only [natToCharsAux, if_pos h]
        simp only [parseDigitsAux]
        rw [if_pos (digitCharFacts n h).1, (digitCharFacts n h).2]
        have hsub : a * 10 + (48 + n - 48) = a * 10 ^ 1 + n := by
          rw [pow_one]; omega
        rw [hsub]
        simp only [List.length_cons, List.length_nil]
      · have hdiv : n / 10 < 10 ^ f := by
          apply Nat.div_lt_of_lt_mul
          rw [mul_comm, ← pow_succ]
          exact hn
        simp only [natToCharsAux, if_neg h]
        rw [ih (n / 10) _ a hdiv]
        simp only [parseDigitsAux]
        rw [if_pos (digitCharFacts (n % 10) (by omega)).1,
          (digitCharFacts (n % 10) (by omega)).2]
        have hlen : (natToCharsAux f (n / 10) [Char.ofNat (48 + n % 10)]).length =
            (natToCharsAux f (n / 10) []).length + 1 := by
          rw [natToCharsAux_append f (n / 10) [Char.ofNat (48 + n % 10)]]
          simp
        rw [hlen]
        have harith : (a * 10 ^ (natToCharsAux f (n / 10) []).length + n / 10) * 10 +
            (48 + n % 10 - 48) =
            a * 10 ^ ((natToCharsAux f (n / 10) []).length + 1) + n := by
          rw [pow_succ]
          have hnm : n / 10 * 10 + n % 10 = n := by omega
          have hexp : (a * 10 ^ (natToCharsAux f (n / 10) []).length + n / 10) * 10 +
              n % 10 =
              a * (10 ^ (natToCharsAux f (n / 10) []).length * 10) +
                (n / 10 * 10 + n % 10) := by ring
          omega
        rw [harith]

lemma parseDigitsAux_stop (rest : List Char) (a : ℕ)
    (h : ∀ c t, rest = c :: t → c.isDigit = false) :
    parseDigitsAux rest a = (a, rest) := by
  cases rest with
  | nil => rfl
  | cons c t =>
      have hc := h c t rfl
      simp only [parseDigitsAux, hc]
      simp

lemma Delim_head_facts (c : Char) (t : List Char) (h : Delim (c :: t)) :
    c.isDigit = false ∧ ¬(c = '.' ∨ c = 'e' ∨ c = 'E') := by
  rcases h with h | h | h | hw
  · subst h; exact ⟨by decide, by decide⟩
  · subst h; exact ⟨by decide, by decide⟩
  · subst h; exact ⟨by decide, by decide⟩
  · rcases hw with h | h | h | h <;> (subst h; exact ⟨by decide, by decide⟩)

lemma n_lt_ten_pow (n : ℕ) : n < 10 ^ (n + 1) :=
  lt_of_lt_of_le (Nat.lt_pow_self (by norm_num) n)
    (Nat.pow_le_pow_right (by norm_num) (Nat.le_succ n))

lemma parseNumberBody_natToChars (neg : Bool) (n : ℕ) (rest : List Char) (hD : Delim rest) :
    parseNumberBody neg (natToChars n ++ rest) =
      some (.int (if neg then -(n : ℤ) else (n : ℤ)), rest) := by
  obtain ⟨d, ds, hds, hdig, h48, h57, h0⟩ :=
    natToCharsAux_head (n + 1) n (n_lt_ten_pow n) (by omega)
  have hnc : natToChars n = d :: ds := hds
  rw [hnc, List.cons_append]
  simp only [parseNumberBody]
  rw [if_neg (by simp [hdig])]
  rw [if_neg ?hz]
  case hz =>
    rintro ⟨hd0, hdg⟩
    have hn0 := h0 hd0
    subst hn0
    have h1 : natToChars 0 = ['0'] := by decide
    rw [hnc] at h1
    injection h1 with _ h2
    subst h2
    simp only [List.nil_append] at hdg
    cases rest with
    | nil => simp at hdg
    | cons c t =>
        have hnd := (Delim_head_facts c t hD).1
        simp [hnd] at hdg
  have hr : parseDigitsAux (d :: (ds ++ rest)) 0 = (n, rest) := by
    rw [← List.cons_append, ← hnc]
    show parseDigitsAux (natToCharsAux (n + 1) n [] ++ rest) 0 = (n, rest)
    rw [← natToCharsAux_append (n + 1) n rest,
      parseDigitsAux_natToCharsAux (n + 1) n rest 0 (n_lt_ten_pow n), zero_mul, zero_add]
    exact parseDigitsAux_stop rest n (fun c t hct => by
      rw [hct] at hD
      exact (Delim_head_facts c t hD).1)
  simp only [hr]
  cases rest with
  | nil => simp
  | cons c t =>
      have hfacts := Delim_head_facts c t hD
      simp only []
      rw [if_neg hfacts.2]

lemma parseNumber_intToChars (i : ℤ) (rest : List Char) (hD : Delim rest) :
    parseNumber (intToChars i ++ rest) = some (.int i, rest) := by
  cases i with
  | ofNat n =>
      obtain ⟨d, ds, hds, hdig, h48, h57, h0⟩ :=
        natToCharsAux_head (n + 1) n (n_lt_ten_pow n) (by omega)
      have hnc : intToChars (.ofNat n) ++ rest = d :: (ds ++ rest) := by
        show natToChars n ++ rest = d :: (ds ++ rest)
        rw [show natToChars n = d :: ds from hds, List.cons_append]
      rw [hnc]
      simp only [parseNumber]
      split
      · rename_i t heq
        injection heq with h1 _
        subst h1
        exact absurd h48 (by decide)
      · rw [← hnc]
        show parseNumberBody false (natToChars n ++ rest) = _
        rw [parseNumberBody_natToChars false n rest hD]
        simp
  | negSucc m =>
      show parseNumber ('-' :: (natToChars (m + 1) ++ rest)) = _
      simp only [parseNumber]
      rw [parseNumberBody_natToChars true (m + 1) rest hD]
      simp only [if_pos rfl, Option.some.injEq, Prod.mk.injEq]
      refine ⟨?_, trivial⟩
      have hns : (Int.negSucc m) = -((m : ℤ) + 1) := Int.negSucc_eq m
      rw [hns]
      push_cast
      ring_nf

set_option maxHeartbeats 1000000 in
lemma escChar_length_pos (c : Char) : 1 ≤ (escChar c).length := by
  simp only [escChar]
  split_ifs <;> simp [hex4]

lemma flatMap_escChar_length (cs : List Char) : cs.length ≤ (cs.flatMap escChar).length := by
  induction cs with
  | nil => simp
  | cons c cs ih =>
      simp only [List.flatMap_cons, List.length_append, List.length_cons]
      have := escChar_length_pos c
      omega

lemma Jfuel_pos (v : JValue) : 1 ≤ Jfuel v := by
  cases v <;> (simp only [Jfuel]; omega)

lemma JfuelArr_pos (xs : List JValue) : 1 ≤ JfuelArr xs := by
  cases xs <;> (simp only [JfuelArr]; omega)

lemma JfuelObj_pos (fs : List (String × JValue)) : 1 ≤ JfuelObj fs := by
  cases fs <;> (simp only [JfuelObj]; omega)

lemma dumpsArrC_cons_decomp (x : JValue) (xs : List JValue) :
    ∃ R, dumpsArrC (x :: xs) = dumpsC x ++ R := by
  cases xs with
  | nil => exact ⟨[], by simp [dumpsArrC, json_dumpsArr, dumpsC]⟩
  | cons y ys =>
      exact ⟨[','] ++ dumpsArrC (y :: ys), by
        simp [dumpsArrC, json_dumpsArr, dumpsC]⟩

lemma dumpsObjC_cons_head (kv : String × JValue) (fs : List (String × JValue)) :
    ∃ Y, dumpsObjC (kv :: fs) = '"' :: Y := by
  cases fs with
  | nil =>
      exact ⟨kv.1.data.flatMap escChar ++ '"' :: (':' :: dumpsC kv.2), by
        simp [dumpsObjC, json_dumpsObj, dumpsStr, dumpsC]⟩
  | cons kv' fs' =>
      exact ⟨kv.1.data.flatMap escChar ++ '"' :: (':' :: (dumpsC kv.2 ++
          ',' :: dumpsObjC (kv' :: fs'))), by
        simp [dumpsObjC, json_dumpsObj, dumpsStr, dumpsC]⟩

lemma intToChars_head_facts (i : ℤ) : ∃ d tail, intToChars i = d :: tail ∧ ¬wsChar d ∧
    d ≠ '"' ∧ d ≠ '[' ∧ d ≠ lbraceChar ∧ d ≠ 'n' ∧ d ≠ 't' ∧ d ≠ 'f' ∧
    d ≠ ']' ∧ d ≠ rbraceChar := by
  cases i with
  | ofNat m =>
      obtain ⟨d, ds, hds, hdig, h48, h57, h0⟩ :=
        natToCharsAux_head (m + 1) m (n_lt_ten_pow m) (by omega)
      refine ⟨d, ds, hds, ?_, ?_, ?_, ?_, ?_, ?_, ?_, ?_, ?_⟩
      · intro hw
        rcases hw with h | h | h | h <;> (subst h; revert h48; decide)
      all_goals (intro h; subst h; revert h48 h57; decide)
  | negSucc m =>
      exact ⟨'-', natToChars (m + 1), rfl, by decide, by decide, by decide, by decide,
        by decide, by decide, by decide, by decide, by decide⟩

lemma dumpsC_head (v : JValue) : ∃ d tail, dumpsC v = d :: tail ∧ ¬wsChar d ∧
    d ≠ ']' ∧ d ≠ rbraceChar := by
  cases v with
  | null => exact ⟨'n', ['u', 'l', 'l'], rfl, by decide, by decide, by decide⟩
  | bool b =>
      cases b
      · exact ⟨'f', ['a', 'l', 's', 'e'], rfl, by decide, by decide, by decide⟩
      · exact ⟨'t', ['r', 'u', 'e'], rfl, by decide, by decide, by decide⟩
  | int i =>
      obtain ⟨d, tail, hdt, hws, _, _, _, _, _, _, h1, h2⟩ := intToChars_head_facts i
      exact ⟨d, tail, hdt, hws, h1, h2⟩
  | str s =>
      exact ⟨'"', s.data.flatMap escChar ++ ['"'], rfl, by decide, by decide, by decide⟩
  | arr xs =>
      exact ⟨'[', dumpsArrC xs ++ [']'], rfl, by decide, by decide, by decide⟩
  | obj fs =>
      exact ⟨lbraceChar, dumpsObjC fs ++ [rbraceChar], rfl, by decide, by decide, by decide⟩

set_option maxHeartbeats 1000000 in
lemma parse_dumpsC_roundtrip : ∀ fuel,
    (∀ v rest, Jfuel v ≤ fuel → Delim rest →
      parseVal fuel (dumpsC v ++ rest) = some (v, rest)) ∧
    (∀ xs rest, JfuelArr xs ≤ fuel → xs ≠ [] → Delim rest →
      parseItems fuel (dumpsArrC xs ++ ']' :: rest) = some (xs, rest)) ∧
    (∀ fs rest, JfuelObj fs ≤ fuel → fs ≠ [] → Delim rest →
      parseMembers fuel (dumpsObjC fs ++ rbraceChar :: rest) = some (fs, rest)) := by
  intro fuel
  induction fuel with
  | zero =>
      refine ⟨?_, ?_, ?_⟩
      · intro v rest hJ _
        have := Jfuel_pos v
        omega
      · intro xs rest hJ _ _
        have := JfuelArr_pos xs
        omega
      · intro fs rest hJ _ _
        have := JfuelObj_pos fs
        omega
  | succ f ih =>
      obtain ⟨ihV, ihA, ihO⟩ := ih
      refine ⟨?_, ?_, ?_⟩
      · intro v rest hJ hD
        cases v with
        | null =>
            show parseVal (f + 1) ('n' :: 'u' :: 'l' :: 'l' :: rest) = some (.null, rest)
            simp only [parseVal]
            rw [skipWs_cons_of_not_ws _ _ (by decide)]
            simp +decide [lbraceChar]
        | bool b =>
            cases b
            · show parseVal (f + 1) ('f' :: 'a' :: 'l' :: 's' :: 'e' :: rest) =
                some (.bool false, rest)
              simp only [parseVal]
              rw [skipWs_cons_of_not_ws _ _ (by decide)]
              simp +decide [lbraceChar]
            · show parseVal (f + 1) ('t' :: 'r' :: 'u' :: 'e' :: rest) =
                some (.bool true, rest)
              simp only [parseVal]
              rw [skipWs_cons_of_not_ws _ _ (by decide)]
              simp +decide [lbraceChar]
        | int i =>
            obtain ⟨d, tail, hdt, hws, hne1, hne2, hne3, hne4, hne5, hne6, _, _⟩ :=
              intToChars_head_facts i
            have hsplit : dumpsC (.int i) ++ rest = d :: (tail ++ rest) := by
              show intToChars i ++ rest = d :: (tail ++ rest)
              rw [hdt, List.cons_append]
            rw [hsplit]
            simp only [parseVal]
            rw [skipWs_cons_of_not_ws _ _ hws]
            simp only []
            rw [if_neg hne1, if_neg hne2, if_neg hne3, if_neg hne4, if_neg hne5,
              if_neg hne6, ← List.cons_append, ← hdt]
            exact parseNumber_intToChars i rest hD
        | str s =>
            have hsplit : dumpsC (.str s) ++ rest =
                '"' :: (s.data.flatMap escChar ++ '"' :: rest) := by
              show dumpsStr s ++ rest = _
              simp [dumpsStr]
            rw [hsplit]
            simp only [parseVal]
            rw [skipWs_cons_of_not_ws _ _ (by decide)]
            simp only []
            rw [if_pos trivial]
            rw [parseStrAux_roundtrip s.data _ rest (by
              simp only [List.length_append, List.length_cons]
              have := flatMap_escChar_length s.data
              omega)]
            rfl
        | arr xs =>
            cases xs with
            | nil =>
                show parseVal (f + 1) ('[' :: ']' :: rest) = some (.arr [], rest)
                simp only [parseVal]
                rw [skipWs_cons_of_not_ws _ _ (by decide)]
                simp only []
                rw [if_neg (by decide), if_pos trivial,
                  skipWs_cons_of_not_ws _ _ (by decide)]
                rfl
            | cons x xs =>
                obtain ⟨R, hR⟩ := dumpsArrC_cons_decomp x xs
                obtain ⟨d, tl, hdt, hws, hne1, hne2⟩ := dumpsC_head x
                have hsplit : dumpsC (.arr (x :: xs)) ++ rest =
                    '[' :: (dumpsArrC (x :: xs) ++ ']' :: rest) := by
                  show '[' :: (json_dumpsArr [','] [':'] (x :: xs) ++ [']']) ++ rest = _
                  simp [dumpsArrC]
                rw [hsplit]
                simp only [parseVal]
                rw [skipWs_cons_of_not_ws _ _ (by decide)]
                simp only []
                rw [if_neg (by decide), if_pos trivial]
                rw [show skipWs (dumpsArrC (x :: xs) ++ ']' :: rest) =
                    d :: (tl ++ (R ++ ']' :: rest)) from by
                  rw [hR, hdt]
                  simp only [List.cons_append, List.append_assoc]
                  exact skipWs_cons_of_not_ws _ _ hws]
                split
                · rename_i t2 heq
                  injection heq with h1 _
                  exact absurd h1 hne1
                · have hfA : JfuelArr (x :: xs) ≤ f := by
                    simp only [Jfuel] at hJ
                    omega
                  rw [ihA (x :: xs) rest hfA (by simp) hD]
                  rfl
        | obj fs =>
            cases fs with
            | nil =>
                show parseVal (f + 1) (lbraceChar :: rbraceChar :: rest) = some (.obj [], rest)
                simp only [parseVal]
                rw [skipWs_cons_of_not_ws _ _ (by decide)]
                simp only []
                rw [if_neg (by decide), if_neg (by decide), if_pos trivial,
                  skipWs_cons_of_not_ws _ _ (by decide)]
                simp only []
                rw [if_pos trivial]
            | cons kv fs =>
                obtain ⟨Y, hY⟩ := dumpsObjC_cons_head kv fs
                have hsplit : dumpsC (.obj (kv :: fs)) ++ rest =
                    lbraceChar :: (dumpsObjC (kv :: fs) ++ rbraceChar :: rest) := by
                  show lbraceChar :: (json_dumpsObj [','] [':'] (kv :: fs) ++
                    [rbraceChar]) ++ rest = _
                  simp [dumpsObjC]
                rw [hsplit]
                simp only [parseVal]
                rw [skipWs_cons_of_not_ws _ _ (by decide)]
                simp only []
                rw [if_neg (by decide), if_neg (by decide), if_pos trivial]
                rw [show skipWs (dumpsObjC (kv :: fs) ++ rbraceChar :: rest) =
                    '"' :: (Y ++ rbraceChar :: rest) from by
                  rw [hY, List.cons_append]
                  exact skipWs_cons_of_not_ws _ _ (by decide)]
                simp only []
                rw [if_neg (by decide)]
                have hfO : JfuelObj (kv :: fs) ≤ f := by
                  simp only [Jfuel] at hJ
                  omega
                rw [ihO (kv :: fs) rest hfO (by simp) hD]
                rfl
      · intro xs rest hJA hne hD
        cases xs with
        | nil => exact absurd rfl hne
        | cons x xs =>
            cases xs with
            | nil =>
                have hs : dumpsArrC [x] ++ ']' :: rest = dumpsC x ++ ']' :: rest := by
                  simp [dumpsArrC, json_dumpsArr, dumpsC]
                simp only [parseItems]
                rw [hs]
                have hfx : Jfuel x ≤ f := by
                  simp only [JfuelArr] at hJA
                  omega
                rw [ihV x (']' :: rest) hfx (Or.inr (Or.inl rfl))]
                simp only []
                rw [skipWs_cons_of_not_ws _ _ (by decide)]
                rfl
            | cons y ys =>
                have hs : dumpsArrC (x :: y :: ys) ++ ']' :: rest =
                    dumpsC x ++ ',' :: (dumpsArrC (y :: ys) ++ ']' :: rest) := by
                  simp [dumpsArrC, json_dumpsArr, dumpsC]
                simp only [parseItems]
                rw [hs]
                have hfx : Jfuel x ≤ f := by
                  simp only [JfuelArr] at hJA
                  omega
                have hfa : JfuelArr (y :: ys) ≤ f := by
                  have h1 := Jfuel_pos x
                  simp only [JfuelArr] at hJA ⊢
                  omega
                rw [ihV x (',' :: (dumpsArrC (y :: ys) ++ ']' :: rest)) hfx (Or.inl rfl)]
                simp only []
                rw [skipWs_cons_of_not_ws _ _ (by decide)]
                simp only []
                rw [ihA (y :: ys) rest hfa (by simp) hD]
                rfl
      · intro fs rest hJO hne hD
        cases fs with
        | nil => exact absurd rfl hne
        | cons kv fs =>
            cases fs with
            | nil =>
                have hs : dumpsObjC [kv] ++ rbraceChar :: rest =
                    '"' :: (kv.1.data.flatMap escChar ++ '"' ::
                      (':' :: (dumpsC kv.2 ++ rbraceChar :: rest))) := by
                  simp [dumpsObjC, json_dumpsObj, dumpsStr, dumpsC]
                simp only [parseMembers]
                rw [hs]
                rw [skipWs_cons_of_not_ws _ _ (by decide)]
                simp only []
                rw [parseStrAux_roundtrip kv.1.data _ _ (by
                  simp only [List.length_append, List.length_cons]
                  have := flatMap_escChar_length kv.1.data
                  omega)]
                simp only []
                rw [skipWs_cons_of_not_ws _ _ (by decide)]
                simp only []
                have hfv : Jfuel kv.2 ≤ f := by
                  simp only [JfuelObj] at hJO
                  omega
                rw [ihV kv.2 (rbraceChar :: rest) hfv (Or.inr (Or.inr (Or.inl rfl)))]
                simp only []
                rw [skipWs_cons_of_not_ws _ _ (by decide)]
                split
                · rename_i t3 heq
                  injection heq with h1 _
                  exact absurd h1 (by decide)
                · rename_i r t3 hnc heq
                  injection heq with h1 h2
                  subst h1
                  subst h2
                  rw [if_pos rfl]
                  rfl
                · rename_i heq
                  exact absurd heq (by simp)
            | cons kv' fs' =>
                have hs : dumpsObjC (kv :: kv' :: fs') ++ rbraceChar :: rest =
                    '"' :: (kv.1.data.flatMap escChar ++ '"' ::
                      (':' :: (dumpsC kv.2 ++ ',' ::
                        (dumpsObjC (kv' :: fs') ++ rbraceChar :: rest)))) := by
                  simp [dumpsObjC, json_dumpsObj, dumpsStr, dumpsC]
                simp only [parseMembers]
                rw [hs]
                rw [skipWs_cons_of_not_ws _ _ (by decide)]
                simp only []
                rw [parseStrAux_roundtrip kv.1.data _ _ (by
                  simp only [List.length_append, List.length_cons]
                  have := flatMap_escChar_length kv.1.data
                  omega)]
                simp only []
                rw [skipWs_cons_of_not_ws _ _ (by decide)]
                simp only []
                have hfv : Jfuel kv.2 ≤ f := by
                  simp only [JfuelObj] at hJO
                  omega
                have hfo : JfuelObj (kv' :: fs') ≤ f := by
                  have h1 := Jfuel_pos kv.2
                  simp only [JfuelObj] at hJO ⊢
                  omega
                rw [ihV kv.2 (',' :: (dumpsObjC (kv' :: fs') ++ rbraceChar :: rest))
                  hfv (Or.inl rfl)]
                simp only []
                rw [skipWs_cons_of_not_ws _ _ (by decide)]
                simp only []
                rw [ihO (kv' :: fs') rest hfo (by simp) hD]
                rfl

lemma dumpsC_inj (v w : JValue) (h : dumpsC v = dumpsC w) : v = w := by
  have hv := (parse_dumpsC_roundtrip (Jfuel v + Jfuel w)).1 v [] (by omega) trivial
  have hw := (parse_dumpsC_roundtrip (Jfuel v + Jfuel w)).1 w [] (by omega) trivial
  rw [List.append_nil] at hv hw
  rw [h, hw] at hv
  simp only [Option.some.injEq, Prod.mk.injEq] at hv
  exact hv.1.symm

lemma canonizeFields_eq_map (fs : List (String × JValue)) :
    canonizeFields fs = fs.map (fun kv => (kv.1, canonize kv.2)) := by
  induction fs with
  | nil => rfl
  | cons kv fs ih => simp [canonizeFields, ih]

lemma canonizeFields_keys (fs : List (String × JValue)) :
    (canonizeFields fs).map Prod.fst = fs.map Prod.fst := by
  rw [canonizeFields_eq_map, List.map_map]
  rfl

lemma sorted_nodupkeys_eq (l1 l2 : List (String × JValue)) (h : l1.Perm l2)
    (hnd : (l1.map Prod.fst).Nodup)
    (hs1 : l1.Sorted (fun a b => a.1 ≤ b.1)) (hs2 : l2.Sorted (fun a b => a.1 ≤ b.1)) :
    l1 = l2 := by
  have hnd2 : (l2.map Prod.fst).Nodup := (h.map Prod.fst).nodup_iff.mp hnd
  have hp1 : l1.Pairwise (fun a b => a.1 ≠ b.1) := List.pairwise_map.mp hnd
  have hp2 : l2.Pairwise (fun a b => a.1 ≠ b.1) := List.pairwise_map.mp hnd2
  have hs1' : l1.Sorted (fun a b => a.1 < b.1) :=
    (hs1.and hp1).imp (fun hab => lt_of_le_of_ne hab.1 hab.2)
  have hs2' : l2.Sorted (fun a b => a.1 < b.1) :=
    (hs2.and hp2).imp (fun hab => lt_of_le_of_ne hab.1 hab.2)
  exact List.eq_of_perm_of_sorted h hs1' hs2'

lemma canonizeFields_sort_perm_eq (args args' : List (String × JValue))
    (h : args.Perm args') (hnd : (args.map Prod.fst).Nodup) :
    (canonizeFields args).insertionSort (fun a b => a.1 ≤ b.1) =
      (canonizeFields args').insertionSort (fun a b => a.1 ≤ b.1) := by
  have hcp : (canonizeFields args).Perm (canonizeFields args') := by
    rw [canonizeFields_eq_map, canonizeFields_eq_map]
    exact h.map _
  have hperm : ((canonizeFields args).insertionSort (fun a b => a.1 ≤ b.1)).Perm
      ((canonizeFields args').insertionSort (fun a b => a.1 ≤ b.1)) :=
    ((List.perm_insertionSort _ _).trans hcp).trans
      (List.perm_insertionSort _ _).symm
  have hndk : (((canonizeFields args).insertionSort
      (fun a b => a.1 ≤ b.1)).map Prod.fst).Nodup := by
    have hp : (((canonizeFields args).insertionSort
        (fun a b => a.1 ≤ b.1)).map Prod.fst).Perm (args.map Prod.fst) := by
      have := (List.perm_insertionSort (fun a b : String × JValue => a.1 ≤ b.1)
        (canonizeFields args)).map Prod.fst
      rw [canonizeFields_keys] at this
      exact this
    exact hp.nodup_iff.mpr hnd
  exact sorted_nodupkeys_eq _ _ hperm hndk
    (List.sorted_insertionSort _ _) (List.sorted_insertionSort _ _)

lemma canonize_obj_perm (fs gs : List (String × JValue)) (h : fs.Perm gs)
    (hnd : (fs.map Prod.fst).Nodup) : canonize (.obj fs) = canonize (.obj gs) := by
  simp only [canonize]
  rw [canonizeFields_sort_perm_eq fs gs h hnd]

/-- C8: canonical serialization.  (i) Two toolUse argument dicts with the
same entries in different insertion order (distinct keys) canonicalize to
identical bytes; (ii) the canonical bytes of two requests agree exactly
when the recursively key-sorted payload values agree, so any change that
survives canonicalization changes the bytes; (iii) however `tools=None`
and `tools=[]` are distinct field values with identical canonical bytes,
so it is NOT true that every change of a request field changes the bytes. -/
theorem canonical_payload_spec :
    (∀ (role id name model : String) (tools : Option (List Tool))
      (args args' : List (String × JValue)), args.Perm args' →
      (args.map Prod.fst).Nodup →
      canonical_payload [⟨role, .blocks [.toolUse id name args]⟩] tools model =
        canonical_payload [⟨role, .blocks [.toolUse id name args']⟩] tools model) ∧
    (∀ msgs msgs' tools tools' model model',
      canonical_payload msgs tools model = canonical_payload msgs' tools' model' ↔
        canonize (payloadJ msgs tools model) = canonize (payloadJ msgs' tools' model')) ∧
    (∀ msgs model, canonical_payload msgs none model =
      canonical_payload msgs (some []) model) := by
  refine ⟨?_, ?_, ?_⟩
  · intro role id name model tools args args' hperm hnd
    have hsort := canonizeFields_sort_perm_eq args args' hperm hnd
    simp only [canonical_payload, payloadJ, Message.model_dump,
      ContentBlock.model_dump, ContentBlock.model_dumpList, List.map,
      canonize, canonizeArr, canonizeFields, hsort]
  · intro msgs msgs' tools tools' model model'
    constructor
    · intro h
      exact dumpsC_inj _ _ h
    · intro h
      show dumpsC (canonize (payloadJ msgs tools model)) =
        dumpsC (canonize (payloadJ msgs' tools' model'))
      rw [h]
  · intro msgs model
    rfl

theorem canonical_payload_spec_witness :
    (c8args1.Perm c8args2 ∧ (c8args1.map Prod.fst).Nodup) ∧
    canonical_payload [c8msg1] none "gpt-4" = canonical_payload [c8msg2] none "gpt-4" :=
  ⟨⟨List.Perm.swap _ _ _, by decide⟩,
    canonical_payload_spec.1 "user" "t1" "calc" "gpt-4" none c8args1 c8args2
      (List.Perm.swap _ _ _) (by decide)⟩

/-- C8 counterexample to "changes when any field changes": `tools=None`
and `tools=[]` are different request contents with identical canonical
bytes (`canonical_payload` collapses both to `"tools":[]` via the falsy
check `if tools else []`). -/
theorem canonical_payload_tools_counterexample :
    canonical_payload [] none "gpt-4" = canonical_payload [] (some []) "gpt-4" ∧
      (none : Option (List Tool)) ≠ some [] :=
  ⟨rfl, by simp⟩
